import Mathlib

/-!
Verification of the simpleDDP client core (src/simpleDDP.ts and
src/classes/ddpCollection.ts) against its natural-language specification.

The code is shallowly embedded: JavaScript objects become association lists
from string keys to a small inductive value type `Val`, the local collection
store becomes an association list from collection names to lists of
documents, and each dispatcher / bulk operation becomes a pure Lean
function translated line by line from the TypeScript source.  JavaScript
loose equality (`==`), `Object.assign`, `delete`, `Array.prototype.findIndex`,
`splice`, and `forEach` (with its snapshot-length iteration) are modelled by
dedicated helper functions below.  Deep copies (`fullCopy`) are identities in
this immutable model.
-/

namespace SDDP

/-- JavaScript values as far as the client core manipulates them: the
documents' field values, message ids and the arguments of subscriptions.
`vUndefined` models the JS value `undefined` (for example the result of
reading an absent property). -/
inductive Val where
  | vUndefined : Val
  | vNull : Val
  | vBool : Bool → Val
  | vNat : Nat → Val
  | vStr : String → Val
deriving DecidableEq, Repr

/-- Numeric coercion used by JavaScript loose equality: booleans coerce to
0/1, numbers to themselves, and numeric strings through `Number(s)`
(approximated by `String.toNat?`; the claims only compare ids that are
numbers, canonical numeric strings or `undefined`). -/
def toNum : Val → Option Nat
  | .vBool b => some (if b then 1 else 0)
  | .vNat n => some n
  | .vStr s => s.toNat?
  | _ => none

/-- JavaScript loose equality `==` restricted to `Val`: `null`/`undefined`
equal each other and nothing else, two strings compare as strings, and any
other pair compares after numeric coercion. -/
def jsEq : Val → Val → Bool
  | .vUndefined, .vUndefined => true
  | .vUndefined, .vNull => true
  | .vNull, .vUndefined => true
  | .vNull, .vNull => true
  | .vUndefined, _ => false
  | _, .vUndefined => false
  | .vNull, _ => false
  | _, .vNull => false
  | .vStr a, .vStr b => a == b
  | a, b =>
    match toNum a, toNum b with
    | some x, some y => x == y
    | _, _ => false

/-- Whether a value is a string (identifiers sent by a DDP server are
strings; several amended claims are restricted to that case). -/
def isStr : Val → Bool
  | .vStr _ => true
  | _ => false

/-- Property lookup on a JS object modelled as an association list
(first binding wins; a JS object has at most one binding per key). -/
def alookup {β : Type} : List (String × β) → String → Option β
  | [], _ => none
  | (k, v) :: rest, key => if k == key then some v else alookup rest key

/-- Property assignment `obj[key] = v`: overwrite the existing binding in
place, otherwise append a new binding (JS property insertion order). -/
def aset {β : Type} : List (String × β) → String → β → List (String × β)
  | [], key, v => [(key, v)]
  | (k, w) :: rest, key, v =>
    if k == key then (k, v) :: rest else (k, w) :: aset rest key v

/-- Property deletion `delete obj[key]`. -/
def adel {β : Type} : List (String × β) → String → List (String × β)
  | [], _ => []
  | (k, v) :: rest, key =>
    if k == key then adel rest key else (k, v) :: adel rest key

/-- A document: a JS object, field name to value. The identifier lives in
the ordinary field `"_id"`, exactly as in the implementation. -/
abbrev Doc : Type := List (String × Val)

/-- Reading a property of a document; an absent property reads as
`undefined`, as in JavaScript. -/
def getField (d : Doc) (k : String) : Val := (alookup d k).getD .vUndefined

/-- The identifier of a stored document (`obj._id` in the source). -/
def getId (d : Doc) : Val := getField d "_id"

/-- `Object.assign(target, src)`: assign every binding of `src` onto
`target`, left to right. -/
def objAssign (target : Doc) (src : Doc) : Doc :=
  src.foldl (fun acc kv => aset acc kv.1 kv.2) target

/-- The new document built by `dispatchAdded`:
`Object.assign({ _id: m.id }, m.fields)`. -/
def mkDoc (id : Val) (fields : Doc) : Doc := objAssign [("_id", id)] fields

/-- `Array.prototype.findIndex`. -/
def jsFindIndex {α : Type} (p : α → Bool) : List α → Option Nat
  | [] => none
  | x :: xs => if p x then some 0 else (jsFindIndex p xs).map (· + 1)

/-- `arr.splice(i, 1)`: remove the element at index `i`. -/
def jsRemoveAt {α : Type} : List α → Nat → List α
  | [], _ => []
  | _ :: xs, 0 => xs
  | x :: xs, n + 1 => x :: jsRemoveAt xs n

/-- The eviction step of `dispatchAdded`: find the first element satisfying
`p` and remove it (`findIndex` followed by `splice(i, 1)`). -/
def evictFirst {α : Type} (p : α → Bool) (col : List α) : List α :=
  match jsFindIndex p col with
  | some i => jsRemoveAt col i
  | none => col

/-- Recursive form of `evictFirst`, used in proofs. -/
def removeFirst {α : Type} (p : α → Bool) : List α → List α
  | [] => []
  | x :: xs => if p x then xs else x :: removeFirst p xs

/-- The local collection store `this.collections`: collection name to the
ordered list of documents. -/
abbrev Store : Type := List (String × List Doc)

/-- `this.collections[c]`, defaulting to the empty list when the collection
does not exist. -/
def getColD (st : Store) (c : String) : List Doc := (alookup st c).getD []

/-- The collection produced by `dispatchAdded` for the touched collection:
evict a stale document carrying the same id (loose equality), then push the
freshly built document. -/
def addedNewCol (col : List Doc) (id : Val) (fields : Option Doc) : List Doc :=
  evictFirst (fun d => jsEq (getId d) id) col ++ [mkDoc id (fields.getD [])]

/-- Store effect of `simpleDDP.dispatchAdded` (lines 204-226): evict the
first document whose `_id` loosely equals `m.id`, create the collection if
missing, and push `Object.assign({_id: m.id}, m.fields)`. -/
def dispatchAddedStore (st : Store) (c : String) (id : Val)
    (fields : Option Doc) : Store :=
  aset st c (addedNewCol (getColD st c) id fields)

/-- The in-place mutation `dispatchChanged` performs on the matched
document: `Object.assign(doc, m.fields)` when `m.fields` is truthy, then
`delete doc[k]` for every `k` in `m.cleared` when that is truthy. -/
def applyChange (d : Doc) (fields : Option Doc)
    (cleared : Option (List String)) : Doc :=
  let d1 := match fields with
    | some fs => objAssign d fs
    | none => d
  match cleared with
  | some cs => cs.foldl (fun acc k => adel acc k) d1
  | none => d1

/-- Store effect of `simpleDDP.dispatchChanged` (lines 246-304): create the
collection if missing; if a document with a loosely equal `_id` exists,
mutate it in place, otherwise fall back to `dispatchAdded`. -/
def dispatchChangedStore (st : Store) (c : String) (id : Val)
    (fields : Option Doc) (cleared : Option (List String)) : Store :=
  let st1 := if (alookup st c).isSome then st else aset st c []
  let col := getColD st1 c
  match jsFindIndex (fun d => jsEq (getId d) id) col with
  | some i => aset st1 c (col.set i (applyChange (col[i]?.getD []) fields cleared))
  | none => dispatchAddedStore st1 c id fields

/-- Store effect of `simpleDDP.dispatchRemoved` (lines 311-335): create the
collection if missing; if a document with a loosely equal `_id` exists,
splice it out, otherwise no-op. -/
def dispatchRemovedStore (st : Store) (c : String) (id : Val) : Store :=
  let st1 := if (alookup st c).isSome then st else aset st c []
  let col := getColD st1 c
  match jsFindIndex (fun d => jsEq (getId d) id) col with
  | some i => aset st1 c (jsRemoveAt col i)
  | none => st1

/-- An entry of `this.onChangeFuncs`: the collection it watches and the
optional predicate.  `filter = none` models a listener object without a
`filter` property (`hasOwnProperty('filter')` false); the predicate receives
the document, an index and the collection array, as in the source. -/
structure Listener where
  collection : String
  filter : Option (Doc → Nat → List Doc → Bool)

/-- The notification objects the dispatchers hand to a listener callback
`l.f`, one constructor per object literal in the source:
`plainAdded` is `{changed:false, added:copy, removed:false}`,
`plainChanged` wraps `{changed:{prev,next,fields,fieldsChanged,fieldsRemoved},
added:false, removed:false}`, `plainRemoved` is
`{changed:false, added:false, removed:removedObj}`,
`filterNotify` is the payload of a predicate-bearing listener on added or
changed diffs, `{prev, next, fields, fieldsChanged, fieldsRemoved}` plus
`predicatePassed` on the changed path (`prev = none` encodes the JS value
`false`), and `filterRemoved` is `{prev:removedObj, next:false}`. -/
inductive Payload where
  | plainAdded (added : Doc)
  | plainChanged (prev next : Doc) (fields : List (String × Nat))
      (fieldsChanged : Doc) (fieldsRemoved : List String)
  | plainRemoved (removed : Doc)
  | filterNotify (prev : Option Doc) (next : Doc) (fields : List (String × Nat))
      (fieldsChanged : Doc) (fieldsRemoved : List String)
      (predicatePassed : Option (Bool × Bool))
  | filterRemoved (prev : Doc)
deriving DecidableEq

/-- The `fields` flag object of `dispatchAdded` (and the first half of the
one in `dispatchChanged`): every key of `m.fields` mapped to `1`. -/
def fieldFlagsAdded (fields : Option Doc) : List (String × Nat) :=
  match fields with
  | some fs => fs.foldl (fun acc kv => aset acc kv.1 1) []
  | none => []

/-- The flag object of `dispatchChanged`: keys of `m.fields` flagged `1`,
then keys of `m.cleared` flagged `0` (a key in both ends up `0`). -/
def changeFlags (fields : Option Doc) (cleared : Option (List String)) :
    List (String × Nat) :=
  let f1 := fieldFlagsAdded fields
  match cleared with
  | some cs => cs.foldl (fun acc k => aset acc k 0) f1
  | none => f1

/-- Per-listener branch of `dispatchAdded` (lines 227-238): a listener on
the message's collection without a predicate gets an added-shape payload;
with a predicate it is invoked only when the predicate accepts the new
document, and then with a changed-shape payload whose `prev` is `false`. -/
def listenerNotifAdded (l : Listener) (c : String) (newObj : Doc) (idx : Nat)
    (col : List Doc) (flags : List (String × Nat)) : Option Payload :=
  if l.collection == c then
    match l.filter with
    | none => some (.plainAdded newObj)
    | some phi =>
      if phi newObj idx col then
        some (.filterNotify none newObj flags newObj [] none)
      else none
  else none

/-- Per-listener branch of `dispatchChanged` (lines 272-300): without a
predicate the listener always fires; with a predicate it fires when the
predicate accepts the pre-change copy or the post-change document, and both
outcomes travel in `predicatePassed`. -/
def listenerNotifChanged (l : Listener) (c : String) (prev next : Doc)
    (flags : List (String × Nat)) (fieldsChanged : Doc)
    (fieldsRemoved : List String) (idx : Nat) (col : List Doc) :
    Option Payload :=
  if l.collection == c then
    match l.filter with
    | none => some (.plainChanged prev next flags fieldsChanged fieldsRemoved)
    | some phi =>
      let pf := phi prev idx col
      let nf := phi next idx col
      if pf || nf then
        some (.filterNotify (some prev) next flags fieldsChanged fieldsRemoved
          (some (pf, nf)))
      else none
  else none

/-- Per-listener branch of `dispatchRemoved` (lines 319-333): without a
predicate the listener receives the removed document itself; with a
predicate it fires only when the predicate accepts the removed document
(evaluated at its former index against the post-removal array). -/
def listenerNotifRemoved (l : Listener) (c : String) (removedObj : Doc)
    (idx : Nat) (col : List Doc) : Option Payload :=
  if l.collection == c then
    match l.filter with
    | none => some (.plainRemoved removedObj)
    | some phi =>
      if phi removedObj idx col then some (.filterRemoved removedObj) else none
  else none

/-- Iteration of `this.onChangeFuncs.forEach` carrying the registration
index of each listener, so a notification records which listener fired. -/
def notifListAux (f : Listener → Option Payload) :
    Nat → List Listener → List (Nat × Payload)
  | _, [] => []
  | j, l :: ls =>
    match f l with
    | some p => (j, p) :: notifListAux f (j + 1) ls
    | none => notifListAux f (j + 1) ls

/-- Notifications produced by one diff: pairs of listener index and payload,
in registration order. -/
def notifList (f : Listener → Option Payload) (ls : List Listener) :
    List (Nat × Payload) :=
  notifListAux f 0 ls

/-- Full `dispatchAdded`: the store effect together with the notifications;
predicates see the freshly pushed document, its index `length - 1` and the
live (post-push) collection array. -/
def dispatchAdded (ls : List Listener) (st : Store) (c : String) (id : Val)
    (fields : Option Doc) : Store × List (Nat × Payload) :=
  let newCol := addedNewCol (getColD st c) id fields
  let newObj := mkDoc id (fields.getD [])
  let flags := fieldFlagsAdded fields
  (dispatchAddedStore st c id fields,
   notifList (fun l => listenerNotifAdded l c newObj (newCol.length - 1) newCol flags) ls)

/-- Full `dispatchChanged`: on a hit, mutate the document in place and
notify with the pre-change copy `prev` and the live mutated `next`
(predicates see the post-change collection array and the hit index); on a
miss, fall back to `dispatchAdded`. -/
def dispatchChanged (ls : List Listener) (st : Store) (c : String) (id : Val)
    (fields : Option Doc) (cleared : Option (List String)) :
    Store × List (Nat × Payload) :=
  let st1 := if (alookup st c).isSome then st else aset st c []
  let col := getColD st1 c
  match jsFindIndex (fun d => jsEq (getId d) id) col with
  | some i =>
    let prev := col[i]?.getD []
    let next := applyChange prev fields cleared
    (aset st1 c (col.set i next),
     notifList (fun l => listenerNotifChanged l c prev next
       (changeFlags fields cleared) (fields.getD []) (cleared.getD []) i
       (col.set i next)) ls)
  | none => dispatchAdded ls st1 c id fields

/-- Full `dispatchRemoved`: on a hit, splice the document out and notify
(predicates see the removed document, its former index and the post-removal
array); on a miss, no notifications. -/
def dispatchRemoved (ls : List Listener) (st : Store) (c : String) (id : Val) :
    Store × List (Nat × Payload) :=
  let st1 := if (alookup st c).isSome then st else aset st c []
  let col := getColD st1 c
  match jsFindIndex (fun d => jsEq (getId d) id) col with
  | some i =>
    let removedObj := col[i]?.getD []
    let col2 := jsRemoveAt col i
    (aset st1 c col2,
     notifList (fun l => listenerNotifRemoved l c removedObj i col2) ls)
  | none => (st1, [])

/-- A server diff message, as consumed by the three dispatchers.  `fields`
and `cleared` are optional because the source tests them for truthiness. -/
inductive DiffMsg where
  | added (c : String) (id : Val) (fields : Option Doc)
  | changed (c : String) (id : Val) (fields : Option Doc)
      (cleared : Option (List String))
  | removed (c : String) (id : Val)

/-- Store effect of one incoming diff message. -/
def applyDiff (st : Store) : DiffMsg → Store
  | .added c id fs => dispatchAddedStore st c id fs
  | .changed c id fs cl => dispatchChangedStore st c id fs cl
  | .removed c id => dispatchRemovedStore st c id

/-- Total number of stored documents, as counted at the top of
`clearData` (lines 529-532). -/
def totalDocuments (st : Store) : Nat :=
  st.foldl (fun n p => n + p.2.length) 0

/-- One collection's pass of `clearData`'s emission loop: iterate the live
collection array with `forEach` semantics (the iteration range is fixed by
the array's length at loop entry, an index past the current length is
skipped), emitting for each visited document a `removed` message whose id is
`doc.id` — the `id` property of the stored document — and dispatching it
synchronously.  Returns the store after the pass and the emitted
`(collection, id)` messages, all tagged with the operation id. -/
def clearForEachCol (c : String) (acc : Store × List (String × Val)) :
    Store × List (String × Val) :=
  (List.range (getColD acc.1 c).length).foldl
    (fun a k =>
      match (getColD a.1 c)[k]? with
      | some doc =>
        let id := getField doc "id"
        (dispatchRemovedStore a.1 c id, a.2 ++ [(c, id)])
      | none => a)
    acc

/-- `simpleDDP.clearData` (lines 527-561), emission part: for every key of
`this.collections` in order, emit one tagged `removed` message per stored
document.  The promise resolves once the tagged-`removed` counter reaches
`totalDocuments` (immediately when that count is zero). -/
def clearDataRun (st : Store) : Store × List (String × Val) :=
  (st.map Prod.fst).foldl (fun a c => clearForEachCol c a) (st, [])

/-- Whether `clearData` resolves with no round trip (line 534). -/
def clearDataImmediate (st : Store) : Bool := totalDocuments st == 0

/-- The tagged `added` messages synthesized by `importData`
(lines 591-604): for every document of every collection of the data set, a
message whose id is `doc.id` and whose fields are the document minus its
`id` property.  Returned as `(collection, id, fields)` triples in emission
order. -/
def importMsgs : List (String × List Doc) → List (String × Val × Doc)
  | [] => []
  | p :: rest =>
    p.2.map (fun d => (p.1, getField d "id", adel d "id")) ++ importMsgs rest

/-- Total number of documents in an import data set (lines 573-576). -/
def totalImportDocs (data : List (String × List Doc)) : Nat :=
  data.foldl (fun n p => n + p.2.length) 0

/-- Store effect of `simpleDDP.importData` on an already-decoded data set:
each synthesized message is dispatched through `dispatchAdded`. -/
def importRun (st : Store) (data : List (String × List Doc)) : Store :=
  (importMsgs data).foldl (fun s m => dispatchAddedStore s m.1 m.2.1 (some m.2.2)) st

/-- The stored form of an imported document: identifier moved from the `id`
property into `_id`, remaining fields unchanged. -/
def storedOf (d : Doc) : Doc := ("_id", getField d "id") :: adel d "id"

/-- A JS number as used by `fetch` settings: a finite integer or
`Infinity`. -/
inductive JsNum where
  | fin (i : Int)
  | inf

/-- `arr.splice(0, k)` as used for `skip`: delete the first `k` elements
(clamped below by 0, `Infinity` deletes everything). -/
def jsSpliceDrop (l : List Doc) (k : JsNum) : List Doc :=
  match k with
  | .fin i => l.drop i.toNat
  | .inf => []

/-- `arr.splice(s)` as used for `limit`: keep the first `s` elements (a
negative start counts from the end, `Infinity` keeps everything). -/
def jsSpliceFrom (l : List Doc) (s : JsNum) : List Doc :=
  match s with
  | .fin i => if i < 0 then l.take (l.length - (-i).toNat) else l.take i.toNat
  | .inf => l

/-- Insertion into an already sorted list used by `jsSortStable`: the new
element goes after every element comparing less-or-equal, so ties keep
their original relative order. -/
def insertSorted (cmp : Doc → Doc → Int) (x : Doc) : List Doc → List Doc
  | [] => [x]
  | y :: ys => if cmp y x ≤ 0 then y :: insertSorted cmp x ys else x :: y :: ys

/-- `Array.prototype.sort(cmp)` modelled as a stable comparator sort
(insertion sort), per the spec's `stable, comparator-based` requirement. -/
def jsSortStable (cmp : Doc → Doc → Int) (l : List Doc) : List Doc :=
  l.foldl (fun acc x => insertSorted cmp x acc) []

/-- The settings object accepted by `ddpCollection.fetch`: `skip` and
`limit` are numbers when present, `sortCmp` is the comparator (absent also
covers the falsy `sort: false`). -/
structure FetchSettings where
  skip : Option JsNum
  limit : Option JsNum
  sortCmp : Option (Doc → Doc → Int)

/-- `ddpCollection.fetch` (ddpCollection.ts lines 84-100): deep-copy the
stored sequence (or `[]` when the collection is absent), then apply the
collection filter if set, then sort if a comparator is given, then
`splice(0, skip)` when `skip` is a number, then `splice(limit)` when
`limit` is a number or `Infinity`. -/
def fetchRun (filt : Option (Doc → Bool)) (s : FetchSettings)
    (stored : Option (List Doc)) : List Doc :=
  let copy := match stored with
    | some cl => cl
    | none => []
  let c1 := match filt with
    | some f => copy.filter f
    | none => copy
  let c2 := match s.sortCmp with
    | some cmp => jsSortStable cmp c1
    | none => c1
  let c3 := match s.skip with
    | some k => jsSpliceDrop c2 k
    | none => c2
  match s.limit with
  | some n => jsSpliceFrom c3 n
  | none => c3

/-- Pipeline following the words of the spec for `fetch` (spec section 4.6):
apply `filter` first, then the stable comparator sort, then discard the
first `skip` elements, then truncate to `limit` elements, in this fixed
order. -/
def specFetchPipeline (filt : Option (Doc → Bool))
    (cmp : Option (Doc → Doc → Int)) (skip limit : Option Nat)
    (stored : Option (List Doc)) : List Doc :=
  let base := stored.getD []
  let c1 := match filt with
    | some f => base.filter f
    | none => base
  let c2 := match cmp with
    | some g => jsSortStable g c1
    | none => c1
  let c3 := match skip with
    | some k => c2.drop k
    | none => c2
  match limit with
  | some n => c3.take n
  | none => c3

/-- Numeric view of a value, used to express the spec's concrete example
comparator `ascending by v` as a JS-style comparator returning a number. -/
def intOfVal : Val → Int
  | .vNat n => (n : Int)
  | _ => 0

/-- Modelled from the spec: `ddpSubscription` (classes/ddpSubscription.js is
not under src/).  Per spec section 4.3 a Subscription holds its publication
name, its ordered argument list and an active/stopped state; it is created
active by the first `sub` call.  `sid` is the object's identity in this
model: every `new ddpSubscription(...)` gets a fresh one. -/
structure SubRec where
  pubname : String
  args : List Val
  stopped : Bool
  sid : Nat
deriving DecidableEq

/-- The subscription registry: `this.subs` plus the supply of fresh
identities. -/
structure SubsState where
  subs : List SubRec
  nextSid : Nat
deriving DecidableEq

/-- Result of one `sub` call: the new registry, the identity of the
returned subscription object, and the remote method calls issued during the
call. -/
structure SubResult where
  state : SubsState
  ret : Nat
  calls : List (String × List Val)
deriving DecidableEq

/-- Modelled from the spec: `isEqual` (helpers/isEqual.js is not under
src/); the spec requires deep equality of argument sequences. -/
def isEqualArgs (a b : List Val) : Bool := a == b

/-- `args` normalization in `sub`: a non-array argument becomes `[]`. -/
def normalizeArgs (args : Option (List Val)) : List Val := args.getD []

/-- `simpleDDP.sub` (lines 469-481): issue `this.apply('foo', [123, 2])`
(result discarded), then search `this.subs` for a subscription with the
same name and deep-equal arguments; create and register a fresh active one
when none exists, otherwise resume the found one when stopped and return
it. -/
def subFn (st : SubsState) (pubname : String) (args : Option (List Val)) :
    SubResult :=
  match jsFindIndex
      (fun s => s.pubname == pubname && isEqualArgs s.args (normalizeArgs args))
      st.subs with
  | none =>
    { state :=
        { subs := st.subs ++
            [{ pubname := pubname, args := normalizeArgs args,
               stopped := false, sid := st.nextSid }],
          nextSid := st.nextSid + 1 },
      ret := st.nextSid,
      calls := [("foo", [Val.vNat 123, Val.vNat 2])] }
  | some i =>
    { state :=
        { st with subs :=
            (if (st.subs[i]?.getD ⟨"", [], false, 0⟩).stopped then
              st.subs.set i
                { st.subs[i]?.getD ⟨"", [], false, 0⟩ with stopped := false }
            else st.subs) },
      ret := (st.subs[i]?.getD ⟨"", [], false, 0⟩).sid,
      calls := [("foo", [Val.vNat 123, Val.vNat 2])] }

/-- Well-formedness of the registry in this model: every stored identity is
below the fresh supply and identities are distinct (each subscription was
created by one `new ddpSubscription(...)`). -/
abbrev subsWF (st : SubsState) : Prop :=
  (∀ s ∈ st.subs, s.sid < st.nextSid) ∧ (st.subs.map SubRec.sid).Nodup

/-- The connection flags of a `simpleDDP` instance that `connect` reads and
writes. -/
structure ConnSt where
  connected : Bool
  tryingToConnect : Bool
  willTryToReconnect : Bool
deriving DecidableEq

/-- Result of one `connect()` call: the updated flags, whether
`this.ddpConnection.connect()` (the Transport's connect) was invoked, and
whether the returned promise resolved immediately (the `else resolve()`
branch for an already connected client). -/
structure ConnectResult where
  state : ConnSt
  transportConnectCalled : Bool
  resolvedImmediately : Bool
deriving DecidableEq

/-- `simpleDDP.connect` (lines 342-370): reset `willTryToReconnect` from the
options, call the Transport's connect unless a connection attempt is
already in progress, and resolve immediately when already connected. -/
def connectRun (autoReconnect : Option Bool) (s : ConnSt) : ConnectResult :=
  let s1 : ConnSt := { s with willTryToReconnect := autoReconnect.getD true }
  let called := !s1.tryingToConnect
  let s2 := if called then { s1 with tryingToConnect := true } else s1
  { state := s2, transportConnectCalled := called,
    resolvedImmediately := s2.connected }

/-- Identifier-uniqueness invariant of one collection (spec section 3): no
two documents share an identifier, read through loose equality. -/
abbrev colInv (col : List Doc) : Prop :=
  col.Pairwise (fun a b => jsEq (getId a) (getId b) = false)

/-- All identifiers of a collection are strings. -/
abbrev colStr (col : List Doc) : Prop := ∀ d ∈ col, isStr (getId d) = true

/-- Store-wide invariant: every collection has pairwise distinct (and, for
the amended claim, string) identifiers. -/
abbrev storeInv (st : Store) : Prop := ∀ p ∈ st, colInv p.2 ∧ colStr p.2

/-- Restrictions on a diff message under which identifier uniqueness is
preserved: the message id is a string and neither `fields` nor `cleared`
touches the `_id` key. -/
abbrev goodDiff : DiffMsg → Prop
  | .added _ id fs => isStr id = true ∧ "_id" ∉ (fs.getD []).map Prod.fst
  | .changed _ id fs cl =>
    isStr id = true ∧ "_id" ∉ (fs.getD []).map Prod.fst ∧ "_id" ∉ cl.getD []
  | .removed _ _ => True

instance (m : DiffMsg) : Decidable (goodDiff m) := by
  cases m with
  | added c id fs => exact inferInstanceAs (Decidable (_ ∧ _))
  | changed c id fs cl => exact inferInstanceAs (Decidable (_ ∧ _))
  | removed c id => exact inferInstanceAs (Decidable True)

/-! ### Lemmas about the JS object model -/

theorem alookup_aset_self {β : Type} (l : List (String × β)) (k : String) (v : β) :
    alookup (aset l k v) k = some v := by
  induction l with
  | nil => simp [aset, alookup]
  | cons p rest ih =>
    obtain ⟨k0, w⟩ := p
    by_cases h : k0 = k
    · subst h
      simp [aset, alookup]
    · simp [aset, alookup, h, ih]

theorem alookup_aset_ne {β : Type} (l : List (String × β)) (k k' : String) (v : β)
    (h : k' ≠ k) : alookup (aset l k v) k' = alookup l k' := by
  induction l with
  | nil => simp [aset, alookup, Ne.symm h]
  | cons p rest ih =>
    obtain ⟨k0, w⟩ := p
    by_cases h0 : k0 = k
    · subst h0
      simp [aset, alookup, Ne.symm h]
    · simp [aset, alookup, h0, ih]

theorem alookup_adel_self {β : Type} (l : List (String × β)) (k : String) :
    alookup (adel l k) k = none := by
  induction l with
  | nil => simp [adel, alookup]
  | cons p rest ih =>
    obtain ⟨k0, w⟩ := p
    by_cases h : k0 = k
    · simpa [adel, h] using ih
    · simp [adel, alookup, h, ih]

theorem alookup_adel_ne {β : Type} (l : List (String × β)) (k k' : String)
    (h : k' ≠ k) : alookup (adel l k) k' = alookup l k' := by
  induction l with
  | nil => simp [adel]
  | cons p rest ih =>
    obtain ⟨k0, w⟩ := p
    by_cases h0 : k0 = k
    · subst h0
      simp [adel, alookup, Ne.symm h, ih]
    · simp [adel, alookup, h0, ih]

theorem alookup_append {β : Type} (l1 l2 : List (String × β)) (k : String) :
    alookup (l1 ++ l2) k =
      match alookup l1 k with
      | some v => some v
      | none => alookup l2 k := by
  induction l1 with
  | nil => simp [alookup]
  | cons p rest ih =>
    obtain ⟨k0, w⟩ := p
    by_cases h : k0 = k
    · simp [alookup, h]
    · simp [alookup, h, ih]

theorem mem_of_alookup_eq_some {β : Type} {l : List (String × β)} {k : String}
    {v : β} (h : alookup l k = some v) : (k, v) ∈ l := by
  induction l with
  | nil => simp [alookup] at h
  | cons p rest ih =>
    obtain ⟨k0, w⟩ := p
    by_cases h0 : k0 = k
    · subst h0
      simp [alookup] at h
      simp [h]
    · simp [alookup, h0] at h
      exact List.mem_cons_of_mem _ (ih h)

theorem mem_aset {β : Type} {l : List (String × β)} {k : String} {v : β}
    {q : String × β} (h : q ∈ aset l k v) : q ∈ l ∨ q = (k, v) := by
  induction l with
  | nil => simpa [aset] using h
  | cons p rest ih =>
    obtain ⟨k0, w⟩ := p
    by_cases h0 : k0 = k
    · subst h0
      simp [aset] at h
      rcases h with h | h
      · exact Or.inr (by simp [h])
      · exact Or.inl (List.mem_cons_of_mem _ h)
    · simp [aset, h0] at h
      rcases h with h | h
      · exact Or.inl (by simp [h])
      · rcases ih h with h2 | h2
        · exact Or.inl (List.mem_cons_of_mem _ h2)
        · exact Or.inr h2

theorem aset_append_of_none {β : Type} (l : List (String × β)) (k : String)
    (v : β) (h : alookup l k = none) : aset l k v = l ++ [(k, v)] := by
  induction l with
  | nil => simp [aset]
  | cons p rest ih =>
    obtain ⟨k0, w⟩ := p
    by_cases h0 : k0 = k
    · simp [alookup, h0] at h
    · simp [alookup, h0] at h
      simp [aset, h0, ih h]

theorem alookup_objAssign_notMem (d src : Doc) (key : String)
    (h : key ∉ src.map Prod.fst) :
    alookup (objAssign d src) key = alookup d key := by
  induction src generalizing d with
  | nil => simp [objAssign]
  | cons p rest ih =>
    obtain ⟨k0, v0⟩ := p
    simp only [List.map_cons, List.mem_cons] at h
    push_neg at h
    have step : objAssign d ((k0, v0) :: rest) = objAssign (aset d k0 v0) rest := by
      simp [objAssign]
    rw [step, ih (aset d k0 v0) h.2, alookup_aset_ne _ _ _ _ h.1]

theorem alookup_objAssign_mem_nodup (d src : Doc) (key : String) (v : Val)
    (hnd : (src.map Prod.fst).Nodup) (h : alookup src key = some v) :
    alookup (objAssign d src) key = some v := by
  induction src generalizing d with
  | nil => simp [alookup] at h
  | cons p rest ih =>
    obtain ⟨k0, v0⟩ := p
    simp only [List.map_cons, List.nodup_cons] at hnd
    have step : objAssign d ((k0, v0) :: rest) = objAssign (aset d k0 v0) rest := by
      simp [objAssign]
    by_cases h0 : k0 = key
    · subst h0
      simp [alookup] at h
      subst h
      rw [step, alookup_objAssign_notMem _ _ _ hnd.1, alookup_aset_self]
    · simp [alookup, h0] at h
      rw [step, ih (aset d k0 v0) hnd.2 h]

theorem objAssign_eq_append (d src : Doc)
    (hnd : (src.map Prod.fst).Nodup)
    (h : ∀ k ∈ src.map Prod.fst, alookup d k = none) :
    objAssign d src = d ++ src := by
  induction src generalizing d with
  | nil => simp [objAssign]
  | cons p rest ih =>
    obtain ⟨k0, v0⟩ := p
    simp only [List.map_cons, List.nodup_cons] at hnd
    have step : objAssign d ((k0, v0) :: rest) = objAssign (aset d k0 v0) rest := by
      simp [objAssign]
    have hset : aset d k0 v0 = d ++ [(k0, v0)] :=
      aset_append_of_none d k0 v0 (h k0 (by simp))
    have hrest : ∀ k ∈ rest.map Prod.fst, alookup (d ++ [(k0, v0)]) k = none := by
      intro k hk
      rw [alookup_append]
      have hne : k0 ≠ k := fun hh => hnd.1 (hh ▸ hk)
      have hd := h k (by simp [hk])
      simp [hd, alookup, hne]
    rw [step, hset, ih (d ++ [(k0, v0)]) hnd.2 hrest, List.append_assoc]
    simp

theorem alookup_delFold_notMem (cs : List String) (d : Doc) (k : String)
    (h : k ∉ cs) :
    alookup (cs.foldl (fun acc key => adel acc key) d) k = alookup d k := by
  induction cs generalizing d with
  | nil => simp
  | cons c0 rest ih =>
    simp only [List.mem_cons] at h
    push_neg at h
    simp only [List.foldl_cons]
    rw [ih (adel d c0) h.2, alookup_adel_ne _ _ _ h.1]

theorem alookup_delFold_mem (cs : List String) (d : Doc) (k : String)
    (h : k ∈ cs) :
    alookup (cs.foldl (fun acc key => adel acc key) d) k = none := by
  induction cs generalizing d with
  | nil => simp at h
  | cons c0 rest ih =>
    simp only [List.foldl_cons]
    by_cases h2 : k ∈ rest
    · exact ih (adel d c0) h2
    · have hk : k = c0 := by
        rcases List.mem_cons.mp h with h3 | h3
        · exact h3
        · exact absurd h3 h2
      subst hk
      rw [alookup_delFold_notMem _ _ _ h2, alookup_adel_self]

/-! ### Lemmas about findIndex / splice / eviction -/

theorem jsFindIndex_eq_none_iff {α : Type} (p : α → Bool) (l : List α) :
    jsFindIndex p l = none ↔ ∀ x ∈ l, p x = false := by
  induction l with
  | nil => simp [jsFindIndex]
  | cons x xs ih =>
    by_cases h : p x
    · simp [jsFindIndex, h]
    · simp [jsFindIndex, h, ih, List.forall_mem_cons]

theorem removeFirst_of_forall_false {α : Type} (p : α → Bool) (l : List α)
    (h : ∀ x ∈ l, p x = false) : removeFirst p l = l := by
  induction l with
  | nil => rfl
  | cons x xs ih =>
    have hx : p x = false := h x (by simp)
    show (if p x then xs else x :: removeFirst p xs) = x :: xs
    rw [hx]
    simp only [Bool.false_eq_true, if_false]
    rw [ih (fun y hy => h y (List.mem_cons_of_mem _ hy))]

theorem evictFirst_eq_removeFirst {α : Type} (p : α → Bool) (l : List α) :
    evictFirst p l = removeFirst p l := by
  induction l with
  | nil => rfl
  | cons x xs ih =>
    show (match jsFindIndex p (x :: xs) with
          | some i => jsRemoveAt (x :: xs) i
          | none => x :: xs) =
        (if p x then xs else x :: removeFirst p xs)
    by_cases h : p x
    · simp [jsFindIndex, h, jsRemoveAt]
    · simp only [jsFindIndex, h, Bool.false_eq_true, if_false]
      cases hfi : jsFindIndex p xs with
      | none =>
        have hall := (jsFindIndex_eq_none_iff p xs).mp hfi
        simp [removeFirst_of_forall_false p xs hall]
      | some i =>
        have h2 : evictFirst p xs = removeFirst p xs := ih
        simp only [evictFirst, hfi] at h2
        simp [jsRemoveAt, h2]

theorem removeFirst_sublist {α : Type} (p : α → Bool) (l : List α) :
    List.Sublist (removeFirst p l) l := by
  induction l with
  | nil => exact List.Sublist.refl _
  | cons x xs ih =>
    show List.Sublist (if p x then xs else x :: removeFirst p xs) (x :: xs)
    by_cases h : p x
    · rw [if_pos h]
      exact List.sublist_cons_self x xs
    · rw [if_neg h]
      exact ih.cons₂ x

theorem jsRemoveAt_sublist {α : Type} (l : List α) (i : Nat) :
    List.Sublist (jsRemoveAt l i) l := by
  induction l generalizing i with
  | nil => exact List.Sublist.refl _
  | cons x xs ih =>
    cases i with
    | zero => exact List.sublist_cons_self x xs
    | succ n => exact (ih n).cons₂ x

theorem jsFindIndex_some {α : Type} (p : α → Bool) (l : List α) (i : Nat)
    (h : jsFindIndex p l = some i) : ∃ x, l[i]? = some x ∧ p x = true := by
  induction l generalizing i with
  | nil => simp [jsFindIndex] at h
  | cons x xs ih =>
    by_cases hx : p x
    · simp [jsFindIndex, hx] at h
      subst h
      exact ⟨x, by simp, hx⟩
    · simp [jsFindIndex, hx] at h
      obtain ⟨j, hj, hji⟩ := h
      subst hji
      obtain ⟨y, hy, hpy⟩ := ih j hj
      exact ⟨y, by simpa using hy, hpy⟩

/-! ### Identifier lemmas -/

theorem jsEq_str (a b : String) : jsEq (.vStr a) (.vStr b) = (a == b) := rfl

theorem isStr_exists {v : Val} (h : isStr v = true) : ∃ s, v = .vStr s := by
  cases v with
  | vStr s => exact ⟨s, rfl⟩
  | vUndefined => simp [isStr] at h
  | vNull => simp [isStr] at h
  | vBool b => simp [isStr] at h
  | vNat n => simp [isStr] at h

theorem getId_mkDoc (id : Val) (fs : Doc) (h : "_id" ∉ fs.map Prod.fst) :
    getId (mkDoc id fs) = id := by
  unfold getId getField mkDoc
  rw [alookup_objAssign_notMem _ _ _ h]
  simp [alookup]

theorem mkDoc_eq_cons (id : Val) (fs : Doc) (hnd : (fs.map Prod.fst).Nodup)
    (h : "_id" ∉ fs.map Prod.fst) : mkDoc id fs = ("_id", id) :: fs := by
  unfold mkDoc
  rw [objAssign_eq_append _ _ hnd]
  · rfl
  · intro k hk
    have hne : k ≠ "_id" := fun hh => h (hh ▸ hk)
    simp [alookup, Ne.symm hne]

theorem getId_applyChange (d : Doc) (fields : Option Doc)
    (cleared : Option (List String))
    (hf : "_id" ∉ (fields.getD []).map Prod.fst)
    (hc : "_id" ∉ cleared.getD []) :
    getId (applyChange d fields cleared) = getId d := by
  unfold getId getField applyChange
  cases fields with
  | none =>
    cases cleared with
    | none => rfl
    | some cs =>
      simp only [Option.getD_some] at hc
      simp only
      rw [alookup_delFold_notMem _ _ _ hc]
  | some fs =>
    simp only [Option.getD_some] at hf
    cases cleared with
    | none =>
      simp only
      rw [alookup_objAssign_notMem _ _ _ hf]
    | some cs =>
      simp only [Option.getD_some] at hc
      simp only
      rw [alookup_delFold_notMem _ _ _ hc, alookup_objAssign_notMem _ _ _ hf]

/-! ### Preservation of identifier uniqueness (claim C4 machinery) -/

theorem removeFirst_no_match (col : List Doc) (id : Val)
    (hinv : colInv col) (hstr : colStr col) (hid : isStr id = true) :
    ∀ d ∈ removeFirst (fun d => jsEq (getId d) id) col,
      jsEq (getId d) id = false := by
  obtain ⟨s, hs⟩ := isStr_exists hid
  subst hs
  induction col with
  | nil => simp [removeFirst]
  | cons d ds ih =>
    rw [colInv, List.pairwise_cons] at hinv
    have hd := hstr d (by simp)
    obtain ⟨a, ha⟩ := isStr_exists hd
    by_cases h : jsEq (getId d) (.vStr s)
    · have hrm : removeFirst (fun d => jsEq (getId d) (.vStr s)) (d :: ds) = ds := by
        show (if jsEq (getId d) (.vStr s) then ds else _) = ds
        rw [if_pos h]
      rw [hrm]
      intro e he
      obtain ⟨b, hb⟩ := isStr_exists (hstr e (List.mem_cons_of_mem _ he))
      have hne := hinv.1 e he
      rw [ha, hb, jsEq_str] at hne
      rw [ha, jsEq_str] at h
      have has : a = s := by simpa using h
      have hab : a ≠ b := by simpa using hne
      rw [hb, jsEq_str]
      simp [has ▸ hab]
      exact fun hh => hab (has ▸ hh.symm)
    · have hrm : removeFirst (fun d => jsEq (getId d) (.vStr s)) (d :: ds) =
          d :: removeFirst (fun d => jsEq (getId d) (.vStr s)) ds := by
        show (if jsEq (getId d) (.vStr s) then ds else _) = _
        rw [if_neg h]
      rw [hrm]
      intro e he
      rcases List.mem_cons.mp he with he | he
      · subst he
        simpa using h
      · exact ih hinv.2 (fun x hx => hstr x (List.mem_cons_of_mem _ hx)) e he

theorem colInv_addedNewCol (col : List Doc) (id : Val) (fields : Option Doc)
    (hinv : colInv col) (hstr : colStr col) (hid : isStr id = true)
    (hfid : "_id" ∉ (fields.getD []).map Prod.fst) :
    colInv (addedNewCol col id fields) ∧ colStr (addedNewCol col id fields) := by
  unfold addedNewCol
  rw [evictFirst_eq_removeFirst]
  have hsub := removeFirst_sublist (fun d => jsEq (getId d) id) col
  have hinv2 : colInv (removeFirst (fun d => jsEq (getId d) id) col) :=
    hinv.sublist hsub
  have hstr2 : colStr (removeFirst (fun d => jsEq (getId d) id) col) :=
    fun d hd => hstr d (hsub.subset hd)
  constructor
  · rw [colInv, List.pairwise_append]
    refine ⟨hinv2, by simp, ?_⟩
    intro a ha b hb
    have hbv : b = mkDoc id (fields.getD []) := by simpa using hb
    subst hbv
    rw [getId_mkDoc _ _ hfid]
    exact removeFirst_no_match col id hinv hstr hid a ha
  · intro d hd
    rcases List.mem_append.mp hd with h | h
    · exact hstr2 d h
    · have hdv : d = mkDoc id (fields.getD []) := by simpa using h
      subst hdv
      rw [getId_mkDoc _ _ hfid]
      exact hid

theorem pairwise_set_congr {α : Type} {R : α → α → Prop}
    (l : List α) (i : Nat) (x d0 : α) (hi : l[i]? = some d0)
    (h1 : ∀ y, R y d0 → R y x) (h2 : ∀ y, R d0 y → R x y)
    (hp : l.Pairwise R) : (l.set i x).Pairwise R := by
  induction l generalizing i with
  | nil => simp [alookup] at hi
  | cons a as ih =>
    rw [List.pairwise_cons] at hp
    cases i with
    | zero =>
      have : a = d0 := by simpa using hi
      subst this
      simp only [List.set_cons_zero]
      rw [List.pairwise_cons]
      exact ⟨fun b hb => h2 b (hp.1 b hb), hp.2⟩
    | succ n =>
      have hi2 : as[n]? = some d0 := by simpa using hi
      simp only [List.set_cons_succ]
      rw [List.pairwise_cons]
      constructor
      · intro b hb
        rcases List.mem_or_eq_of_mem_set hb with h | h
        · exact hp.1 b h
        · subst h
          exact h1 a (hp.1 d0 (List.getElem?_mem hi2))
      · exact ih n hi2 hp.2

theorem colStr_set (col : List Doc) (i : Nat) (next d0 : Doc)
    (hi : col[i]? = some d0) (hn : getId next = getId d0)
    (h : colStr col) : colStr (col.set i next) := by
  intro d hd
  rcases List.mem_or_eq_of_mem_set hd with hm | hm
  · exact h d hm
  · subst hm
    rw [hn]
    exact h d0 (List.getElem?_mem hi)

theorem storeInv_getColD (st : Store) (c : String) (h : storeInv st) :
    colInv (getColD st c) ∧ colStr (getColD st c) := by
  unfold getColD
  cases hl : alookup st c with
  | none =>
    refine ⟨List.Pairwise.nil, ?_⟩
    intro d hd
    simp at hd
  | some col =>
    exact h (c, col) (mem_of_alookup_eq_some hl)

theorem storeInv_aset (st : Store) (c : String) (col : List Doc)
    (h : storeInv st) (hc : colInv col ∧ colStr col) :
    storeInv (aset st c col) := by
  intro p hp
  rcases mem_aset hp with h2 | h2
  · exact h p h2
  · subst h2
    exact hc

theorem storeInv_ensure (st : Store) (c : String) (h : storeInv st) :
    storeInv (if (alookup st c).isSome then st else aset st c []) := by
  split
  · exact h
  · refine storeInv_aset st c [] h ⟨List.Pairwise.nil, ?_⟩
    intro d hd
    simp at hd

theorem storeInv_dispatchAddedStore (st : Store) (c : String) (id : Val)
    (fields : Option Doc) (h : storeInv st) (hid : isStr id = true)
    (hfid : "_id" ∉ (fields.getD []).map Prod.fst) :
    storeInv (dispatchAddedStore st c id fields) := by
  obtain ⟨hc1, hc2⟩ := storeInv_getColD st c h
  exact storeInv_aset _ _ _ h (colInv_addedNewCol _ _ _ hc1 hc2 hid hfid)

theorem storeInv_dispatchChangedStore (st : Store) (c : String) (id : Val)
    (fields : Option Doc) (cleared : Option (List String)) (h : storeInv st)
    (hid : isStr id = true)
    (hfid : "_id" ∉ (fields.getD []).map Prod.fst)
    (hcid : "_id" ∉ cleared.getD []) :
    storeInv (dispatchChangedStore st c id fields cleared) := by
  have hst1 := storeInv_ensure st c h
  show storeInv
    (match jsFindIndex (fun d => jsEq (getId d) id)
        (getColD (if (alookup st c).isSome then st else aset st c []) c) with
     | some i =>
       aset (if (alookup st c).isSome then st else aset st c []) c
         ((getColD (if (alookup st c).isSome then st else aset st c []) c).set i
           (applyChange
             (((getColD (if (alookup st c).isSome then st else aset st c []) c)[i]?).getD [])
             fields cleared))
     | none =>
       dispatchAddedStore (if (alookup st c).isSome then st else aset st c [])
         c id fields)
  set st1 := if (alookup st c).isSome then st else aset st c [] with hst1def
  obtain ⟨hc1, hc2⟩ := storeInv_getColD st1 c hst1
  cases hfi : jsFindIndex (fun d => jsEq (getId d) id) (getColD st1 c) with
  | none =>
    exact storeInv_dispatchAddedStore st1 c id fields hst1 hid hfid
  | some i =>
    obtain ⟨d0, hd0, hp0⟩ := jsFindIndex_some _ _ _ hfi
    have hget : ((getColD st1 c)[i]?).getD [] = d0 := by rw [hd0]; rfl
    have hnext : getId (applyChange (((getColD st1 c)[i]?).getD []) fields cleared)
        = getId d0 := by
      rw [hget, getId_applyChange _ _ _ hfid hcid]
    refine storeInv_aset _ _ _ hst1 ⟨?_, ?_⟩
    · refine pairwise_set_congr _ i _ d0 hd0 ?_ ?_ hc1
      · intro y hy
        rw [hnext]
        exact hy
      · intro y hy
        rw [hnext]
        exact hy
    · exact colStr_set _ i _ d0 hd0 hnext hc2

theorem storeInv_dispatchRemovedStore (st : Store) (c : String) (id : Val)
    (h : storeInv st) : storeInv (dispatchRemovedStore st c id) := by
  have hst1 := storeInv_ensure st c h
  show storeInv
    (match jsFindIndex (fun d => jsEq (getId d) id)
        (getColD (if (alookup st c).isSome then st else aset st c []) c) with
     | some i =>
       aset (if (alookup st c).isSome then st else aset st c []) c
         (jsRemoveAt (getColD (if (alookup st c).isSome then st else aset st c []) c) i)
     | none => if (alookup st c).isSome then st else aset st c [])
  set st1 := if (alookup st c).isSome then st else aset st c [] with hst1def
  obtain ⟨hc1, hc2⟩ := storeInv_getColD st1 c hst1
  cases hfi : jsFindIndex (fun d => jsEq (getId d) id) (getColD st1 c) with
  | none => exact hst1
  | some i =>
    have hsub := jsRemoveAt_sublist (getColD st1 c) i
    refine storeInv_aset _ _ _ hst1 ⟨hc1.sublist hsub, ?_⟩
    intro d hd
    exact hc2 d (hsub.subset hd)

theorem storeInv_applyDiff (st : Store) (m : DiffMsg) (h : storeInv st)
    (hm : goodDiff m) : storeInv (applyDiff st m) := by
  cases m with
  | added c id fs => exact storeInv_dispatchAddedStore st c id fs h hm.1 hm.2
  | changed c id fs cl =>
    exact storeInv_dispatchChangedStore st c id fs cl h hm.1 hm.2.1 hm.2.2
  | removed c id => exact storeInv_dispatchRemovedStore st c id h

theorem storeInv_foldDiffs (st : Store) (msgs : List DiffMsg)
    (h : storeInv st) (hm : ∀ m ∈ msgs, goodDiff m) :
    storeInv (msgs.foldl applyDiff st) := by
  induction msgs generalizing st with
  | nil => simpa using h
  | cons m rest ih =>
    simp only [List.foldl_cons]
    exact ih (applyDiff st m) (storeInv_applyDiff st m h (hm m (by simp)))
      (fun x hx => hm x (List.mem_cons_of_mem _ hx))

/-! ### Import machinery (claim C3) -/

theorem adel_sublist {β : Type} (l : List (String × β)) (k : String) :
    List.Sublist (adel l k) l := by
  induction l with
  | nil => exact List.Sublist.refl _
  | cons p rest ih =>
    obtain ⟨k0, w⟩ := p
    show List.Sublist (if k0 == k then adel rest k else (k0, w) :: adel rest k) _
    by_cases h : k0 = k
    · rw [if_pos (by simpa using h)]
      exact ih.cons _
    · rw [if_neg (by simpa using h)]
      exact ih.cons₂ _

theorem alookup_eq_none_iff {β : Type} (l : List (String × β)) (k : String) :
    alookup l k = none ↔ k ∉ l.map Prod.fst := by
  induction l with
  | nil => simp [alookup]
  | cons p rest ih =>
    obtain ⟨k0, w⟩ := p
    by_cases h : k0 = k
    · subst h
      simp [alookup]
    · simp only [alookup, beq_iff_eq, if_neg h, List.map_cons, List.mem_cons, ih]
      constructor
      · intro hn hmem
        rcases hmem with hm | hm
        · exact h hm.symm
        · exact hn hm
      · intro hn hm
        exact hn (Or.inr hm)

theorem getColD_dispatchAddedStore_self (st : Store) (c : String) (id : Val)
    (fs : Option Doc) :
    getColD (dispatchAddedStore st c id fs) c = addedNewCol (getColD st c) id fs := by
  unfold dispatchAddedStore getColD
  rw [alookup_aset_self]
  rfl

theorem getColD_dispatchAddedStore_ne (st : Store) (c c' : String) (id : Val)
    (fs : Option Doc) (h : c' ≠ c) :
    getColD (dispatchAddedStore st c id fs) c' = getColD st c' := by
  unfold dispatchAddedStore getColD
  rw [alookup_aset_ne _ _ _ _ h]

theorem addedNewCol_of_no_match (col : List Doc) (id : Val) (fs : Option Doc)
    (h : ∀ d ∈ col, jsEq (getId d) id = false) :
    addedNewCol col id fs = col ++ [mkDoc id (fs.getD [])] := by
  unfold addedNewCol
  rw [evictFirst_eq_removeFirst, removeFirst_of_forall_false _ _ h]

theorem getId_storedOf (d : Doc) : getId (storedOf d) = getField d "id" := by
  simp [storedOf, getId, getField, alookup]

theorem mkDoc_adel_eq_storedOf (d : Doc) (hnid : alookup d "_id" = none)
    (hnd : (d.map Prod.fst).Nodup) :
    mkDoc (getField d "id") (adel d "id") = storedOf d := by
  have hsub : List.Sublist ((adel d "id").map Prod.fst) (d.map Prod.fst) :=
    (adel_sublist d "id").map Prod.fst
  have hnd2 : ((adel d "id").map Prod.fst).Nodup := hnd.sublist hsub
  have hnotid : "_id" ∉ (adel d "id").map Prod.fst := by
    intro hmem
    exact ((alookup_eq_none_iff d "_id").mp hnid) (hsub.subset hmem)
  rw [mkDoc_eq_cons _ _ hnd2 hnotid]
  rfl

theorem importMsgs_colls (data : List (String × List Doc)) :
    ∀ m ∈ importMsgs data, m.1 ∈ data.map Prod.fst := by
  induction data with
  | nil => simp [importMsgs]
  | cons p rest ih =>
    intro m hm
    rw [importMsgs] at hm
    rcases List.mem_append.mp hm with h | h
    · obtain ⟨d, _, hd⟩ := List.mem_map.mp h
      subst hd
      simp
    · exact List.mem_cons_of_mem _ (ih m h)

theorem importFold_other (msgs : List (String × Val × Doc)) (st : Store)
    (c' : String) (h : ∀ m ∈ msgs, m.1 ≠ c') :
    getColD (msgs.foldl
      (fun s m => dispatchAddedStore s m.1 m.2.1 (some m.2.2)) st) c' =
    getColD st c' := by
  induction msgs generalizing st with
  | nil => rfl
  | cons m rest ih =>
    simp only [List.foldl_cons]
    rw [ih _ (fun x hx => h x (List.mem_cons_of_mem _ hx)),
      getColD_dispatchAddedStore_ne _ _ _ _ _ (Ne.symm (h m (by simp)))]

theorem importFold_col (docs : List Doc) (c : String) (st : Store)
    (hpw : (docs.map (fun d => getField d "id")).Pairwise
      (fun a b => jsEq a b = false))
    (hdocs : ∀ d ∈ docs, alookup d "_id" = none ∧ (d.map Prod.fst).Nodup)
    (hcol : ∀ e ∈ getColD st c, ∀ d ∈ docs,
      jsEq (getId e) (getField d "id") = false) :
    getColD ((docs.map (fun d => (c, getField d "id", adel d "id"))).foldl
        (fun s m => dispatchAddedStore s m.1 m.2.1 (some m.2.2)) st) c
      = getColD st c ++ docs.map storedOf
    ∧ ∀ c', c' ≠ c →
      getColD ((docs.map (fun d => (c, getField d "id", adel d "id"))).foldl
          (fun s m => dispatchAddedStore s m.1 m.2.1 (some m.2.2)) st) c'
        = getColD st c' := by
  induction docs generalizing st with
  | nil => simp
  | cons d rest ih =>
    simp only [List.map_cons, List.foldl_cons]
    simp only [List.map_cons] at hpw
    rw [List.pairwise_cons] at hpw
    set st2 := dispatchAddedStore st c (getField d "id") (some (adel d "id"))
      with hst2
    have hself : getColD st2 c = getColD st c ++ [storedOf d] := by
      rw [hst2, getColD_dispatchAddedStore_self,
        addedNewCol_of_no_match _ _ _ (fun e he => hcol e he d (by simp))]
      rw [Option.getD_some,
        mkDoc_adel_eq_storedOf d (hdocs d (by simp)).1 (hdocs d (by simp)).2]
    have hcol2 : ∀ e ∈ getColD st2 c, ∀ x ∈ rest,
        jsEq (getId e) (getField x "id") = false := by
      intro e he x hx
      rw [hself] at he
      rcases List.mem_append.mp he with h2 | h2
      · exact hcol e h2 x (List.mem_cons_of_mem _ hx)
      · have : e = storedOf d := by simpa using h2
        subst this
        rw [getId_storedOf]
        exact hpw.1 (getField x "id") (List.mem_map.mpr ⟨x, hx, rfl⟩)
    obtain ⟨ha, hb⟩ := ih st2 hpw.2
      (fun x hx => hdocs x (List.mem_cons_of_mem _ hx)) hcol2
    refine ⟨?_, ?_⟩
    · rw [ha, hself, List.append_assoc]
      rfl
    · intro c' hc'
      rw [hb c' hc', hst2,
        getColD_dispatchAddedStore_ne _ _ _ _ _ hc']

theorem importMsgs_length (data : List (String × List Doc)) :
    (importMsgs data).length = totalImportDocs data := by
  have haux : ∀ (l : List (String × List Doc)) (n : Nat),
      l.foldl (fun m p => m + p.2.length) n =
        n + l.foldl (fun m p => m + p.2.length) 0 := by
    intro l
    induction l with
    | nil => intro n; simp
    | cons p rest ih =>
      intro n
      simp only [List.foldl_cons, Nat.zero_add]
      rw [ih (n + p.2.length), ih p.2.length, Nat.add_assoc]
  induction data with
  | nil => rfl
  | cons p rest ih =>
    rw [importMsgs, List.length_append, List.length_map, ih]
    unfold totalImportDocs
    simp only [List.foldl_cons, Nat.zero_add]
    rw [haux rest p.2.length]

theorem importRun_spec (data : List (String × List Doc)) (st : Store)
    (hnd : (data.map Prod.fst).Nodup)
    (hgood : ∀ p ∈ data,
      (p.2.map (fun d => getField d "id")).Pairwise (fun a b => jsEq a b = false)
      ∧ ∀ d ∈ p.2, alookup d "_id" = none ∧ (d.map Prod.fst).Nodup)
    (hempty : ∀ p ∈ data, getColD st p.1 = []) :
    ∀ c, getColD (importRun st data) c =
      (match alookup data c with
       | some docs => docs.map storedOf
       | none => getColD st c) := by
  induction data generalizing st with
  | nil =>
    intro c
    simp [importRun, importMsgs, alookup]
  | cons p rest ih =>
    obtain ⟨c0, docs0⟩ := p
    simp only [List.map_cons, List.nodup_cons] at hnd
    intro c
    have hsplit : importRun st ((c0, docs0) :: rest) =
        importRun ((docs0.map (fun d => (c0, getField d "id", adel d "id"))).foldl
          (fun s m => dispatchAddedStore s m.1 m.2.1 (some m.2.2)) st) rest := by
      unfold importRun
      rw [importMsgs, List.foldl_append]
    set st1 := (docs0.map (fun d => (c0, getField d "id", adel d "id"))).foldl
      (fun s m => dispatchAddedStore s m.1 m.2.1 (some m.2.2)) st with hst1
    obtain ⟨hg1, hg2⟩ := hgood (c0, docs0) (by simp)
    have hc0empty : getColD st c0 = [] := hempty (c0, docs0) (by simp)
    obtain ⟨hfold1, hfold2⟩ := importFold_col docs0 c0 st hg1 hg2
      (by rw [hc0empty]; intro e he; simp at he)
    have hst1c0 : getColD st1 c0 = docs0.map storedOf := by
      rw [hst1, hfold1, hc0empty]
      rfl
    have hrest_empty : ∀ q ∈ rest, getColD st1 q.1 = [] := by
      intro q hq
      have hne : q.1 ≠ c0 := by
        intro hh
        exact hnd.1 (hh ▸ List.mem_map.mpr ⟨q, hq, rfl⟩)
      rw [hst1, hfold2 q.1 hne]
      exact hempty q (List.mem_cons_of_mem _ hq)
    have hrec := ih st1 hnd.2
      (fun q hq => hgood q (List.mem_cons_of_mem _ hq)) hrest_empty
    rw [hsplit]
    by_cases hcc : c = c0
    · subst hcc
      have hnone : alookup rest c = none :=
        (alookup_eq_none_iff rest c).mpr hnd.1
      have hframe : ∀ m ∈ importMsgs rest, m.1 ≠ c := by
        intro m hm hh
        exact hnd.1 (hh ▸ importMsgs_colls rest m hm)
      have : getColD (importRun st1 rest) c = getColD st1 c := by
        unfold importRun
        exact importFold_other _ _ _ hframe
      rw [this, hst1c0]
      simp [alookup]
    · have hlk : alookup ((c0, docs0) :: rest) c = alookup rest c := by
        simp [alookup, Ne.symm hcc]
      rw [hlk, hrec c]
      cases hr : alookup rest c with
      | some docs => simp
      | none =>
        simp only
        rw [hst1, hfold2 c hcc]

theorem fetchRun_noSettings (s : Option (List Doc)) :
    fetchRun none ⟨none, none, none⟩ s = s.getD [] := by
  cases s <;> rfl

theorem jsSpliceDrop_natCast (l : List Doc) (n : Nat) :
    jsSpliceDrop l (.fin (n : Int)) = l.drop n := by
  unfold jsSpliceDrop
  simp

theorem jsSpliceFrom_natCast (l : List Doc) (n : Nat) :
    jsSpliceFrom l (.fin (n : Int)) = l.take n := by
  show (if (n : Int) < 0 then l.take (l.length - (-(n : Int)).toNat)
        else l.take (n : Int).toNat) = l.take n
  rw [if_neg (Int.not_lt.mpr (Int.natCast_nonneg n))]
  simp

theorem fetchRun_eq_pipeline (filt : Option (Doc → Bool))
    (cmp : Option (Doc → Doc → Int)) (skip limit : Option Nat)
    (stored : Option (List Doc)) :
    fetchRun filt
      ⟨skip.map (fun k => JsNum.fin (k : Int)),
       limit.map (fun n => JsNum.fin (n : Int)), cmp⟩ stored
      = specFetchPipeline filt cmp skip limit stored := by
  unfold fetchRun specFetchPipeline
  cases stored <;> cases filt <;> cases cmp <;> cases skip <;> cases limit <;>
    simp [jsSpliceDrop_natCast, jsSpliceFrom_natCast]

/-! ### Frame lemmas for `dispatchChanged` (claim C5) -/

theorem alookup_applyChange_cleared (d : Doc) (fs : Option Doc)
    (cl : Option (List String)) (k : String) (hk : k ∈ cl.getD []) :
    alookup (applyChange d fs cl) k = none := by
  cases cl with
  | none => simp at hk
  | some cs =>
    simp only [Option.getD_some] at hk
    unfold applyChange
    cases fs <;> exact alookup_delFold_mem cs _ k hk

theorem alookup_applyChange_fields (d : Doc) (fs : Option Doc)
    (cl : Option (List String)) (k : String) (v : Val)
    (hnc : k ∉ cl.getD []) (hnd : ((fs.getD []).map Prod.fst).Nodup)
    (hv : alookup (fs.getD []) k = some v) :
    alookup (applyChange d fs cl) k = some v := by
  cases fs with
  | none => simp [alookup] at hv
  | some f =>
    simp only [Option.getD_some] at hnd hv
    unfold applyChange
    cases cl with
    | none => exact alookup_objAssign_mem_nodup d f k v hnd hv
    | some cs =>
      simp only [Option.getD_some] at hnc
      simp only
      rw [alookup_delFold_notMem cs _ k hnc]
      exact alookup_objAssign_mem_nodup d f k v hnd hv

theorem alookup_applyChange_frame (d : Doc) (fs : Option Doc)
    (cl : Option (List String)) (k : String)
    (hnc : k ∉ cl.getD []) (hnf : k ∉ (fs.getD []).map Prod.fst) :
    alookup (applyChange d fs cl) k = alookup d k := by
  unfold applyChange
  cases fs with
  | none =>
    cases cl with
    | none => rfl
    | some cs =>
      simp only [Option.getD_some] at hnc
      exact alookup_delFold_notMem cs d k hnc
  | some f =>
    simp only [Option.getD_some] at hnf
    cases cl with
    | none => exact alookup_objAssign_notMem d f k hnf
    | some cs =>
      simp only [Option.getD_some] at hnc
      simp only
      rw [alookup_delFold_notMem cs _ k hnc]
      exact alookup_objAssign_notMem d f k hnf

theorem dispatchChangedStore_found (st : Store) (c : String) (id : Val)
    (fs : Option Doc) (cl : Option (List String)) (col : List Doc) (i : Nat)
    (hcol : alookup st c = some col)
    (hfi : jsFindIndex (fun d => jsEq (getId d) id) col = some i) :
    dispatchChangedStore st c id fs cl =
      aset st c (col.set i (applyChange (col[i]?.getD []) fs cl)) := by
  have h1 : (alookup st c).isSome = true := by rw [hcol]; rfl
  have h2 : getColD st c = col := by unfold getColD; rw [hcol]; rfl
  unfold dispatchChangedStore
  simp only [h1, if_true, h2, hfi]

/-! ### Notification bookkeeping (claims C6 and C8) -/

theorem notifListAux_ge (f : Listener → Option Payload) (ls : List Listener) :
    ∀ (k : Nat) (q : Nat × Payload), q ∈ notifListAux f k ls → k ≤ q.1 := by
  induction ls with
  | nil =>
    intro k q hq
    simp [notifListAux] at hq
  | cons l rest ih =>
    intro k q hq
    cases hf : f l with
    | some p =>
      simp only [notifListAux, hf] at hq
      rcases List.mem_cons.mp hq with h | h
      · subst h
        exact Nat.le_refl k
      · exact Nat.le_of_succ_le (ih (k + 1) q h)
    | none =>
      simp only [notifListAux, hf] at hq
      exact Nat.le_of_succ_le (ih (k + 1) q hq)

theorem notifListAux_any (f : Listener → Option Payload) (ls : List Listener) :
    ∀ (k j : Nat) (l : Listener), ls[j]? = some l →
      ((notifListAux f k ls).any (fun q => q.1 == k + j)) = (f l).isSome := by
  induction ls with
  | nil =>
    intro k j l hj
    simp at hj
  | cons l0 rest ih =>
    intro k j l hj
    cases j with
    | zero =>
      have hl : l0 = l := by simpa using hj
      subst hl
      cases hf : f l0 with
      | some p => simp [notifListAux, hf]
      | none =>
        simp only [notifListAux, hf, Option.isSome_none, Nat.add_zero]
        cases hany : (notifListAux f (k + 1) rest).any (fun q => q.1 == k) with
        | false => rfl
        | true =>
          obtain ⟨q, hq, hqe⟩ := List.any_eq_true.mp hany
          have hge := notifListAux_ge f rest (k + 1) q hq
          have heq : q.1 = k := by simpa using hqe
          omega
    | succ n =>
      have hj2 : rest[n]? = some l := by simpa using hj
      have harith : k + (n + 1) = (k + 1) + n := by omega
      cases hf : f l0 with
      | some p =>
        simp only [notifListAux, hf, List.any_cons]
        have hne : (k == k + (n + 1)) = false := by
          simp only [beq_eq_false_iff_ne]
          omega
        rw [hne, Bool.false_or, harith, ih (k + 1) n l hj2]
      | none =>
        simp only [notifListAux, hf]
        rw [harith, ih (k + 1) n l hj2]

theorem notifList_any (f : Listener → Option Payload) (ls : List Listener)
    (j : Nat) (l : Listener) (hj : ls[j]? = some l) :
    ((notifList f ls).any (fun q => q.1 == j)) = (f l).isSome := by
  have := notifListAux_any f ls 0 j l hj
  simpa [notifList] using this

theorem flagFold_mem (fs : List (String × Val)) (acc : List (String × Nat))
    (k : String) (h : alookup acc k = some 1 ∨ k ∈ fs.map Prod.fst) :
    alookup (fs.foldl (fun a kv => aset a kv.1 1) acc) k = some 1 := by
  induction fs generalizing acc with
  | nil =>
    rcases h with h | h
    · exact h
    · simp at h
  | cons p rest ih =>
    simp only [List.foldl_cons]
    rcases h with h | h
    · refine ih (aset acc p.1 1) (Or.inl ?_)
      by_cases hk : p.1 = k
      · subst hk
        exact alookup_aset_self acc p.1 1
      · rw [alookup_aset_ne _ _ _ _ (fun hh => hk hh.symm)]
        exact h
    · simp only [List.map_cons, List.mem_cons] at h
      rcases h with hk | hk
      · subst hk
        exact ih (aset acc p.1 1) (Or.inl (alookup_aset_self acc p.1 1))
      · exact ih (aset acc p.1 1) (Or.inr hk)

theorem fieldFlagsAdded_mem (fields : Option Doc) (k : String)
    (h : k ∈ (fields.getD []).map Prod.fst) :
    alookup (fieldFlagsAdded fields) k = some 1 := by
  cases fields with
  | none => simp at h
  | some fs =>
    simp only [Option.getD_some] at h
    exact flagFold_mem fs [] k (Or.inr h)

theorem dispatchChanged_found_notifs (ls : List Listener) (st : Store)
    (c : String) (id : Val) (fs : Option Doc) (cl : Option (List String))
    (col : List Doc) (i : Nat) (hcol : alookup st c = some col)
    (hfi : jsFindIndex (fun d => jsEq (getId d) id) col = some i) :
    (dispatchChanged ls st c id fs cl).2 =
      notifList (fun l => listenerNotifChanged l c (col[i]?.getD [])
        (applyChange (col[i]?.getD []) fs cl) (changeFlags fs cl) (fs.getD [])
        (cl.getD []) i
        (col.set i (applyChange (col[i]?.getD []) fs cl))) ls := by
  have h1 : (alookup st c).isSome = true := by rw [hcol]; rfl
  have h2 : getColD st c = col := by unfold getColD; rw [hcol]; rfl
  unfold dispatchChanged
  simp only [h1, if_true, h2, hfi]

theorem dispatchRemoved_found_notifs (ls : List Listener) (st : Store)
    (c : String) (id : Val) (col : List Doc) (i : Nat)
    (hcol : alookup st c = some col)
    (hfi : jsFindIndex (fun d => jsEq (getId d) id) col = some i) :
    (dispatchRemoved ls st c id).2 =
      notifList (fun l => listenerNotifRemoved l c (col[i]?.getD []) i
        (jsRemoveAt col i)) ls := by
  have h1 : (alookup st c).isSome = true := by rw [hcol]; rfl
  have h2 : getColD st c = col := by unfold getColD; rw [hcol]; rfl
  unfold dispatchRemoved
  simp only [h1, if_true, h2, hfi]

/-! ### Subscription registry lemmas (claim C7) -/

theorem jsFindIndex_set_of_some {α : Type} (p : α → Bool) (l : List α)
    (i : Nat) (y : α) (hfi : jsFindIndex p l = some i) (hy : p y = true) :
    jsFindIndex p (l.set i y) = some i := by
  induction l generalizing i with
  | nil => simp [jsFindIndex] at hfi
  | cons x xs ih =>
    by_cases hx : p x
    · simp [jsFindIndex, hx] at hfi
      subst hfi
      simp [jsFindIndex, hy]
    · simp [jsFindIndex, hx] at hfi
      obtain ⟨j, hj, hji⟩ := hfi
      subst hji
      simp only [List.set_cons_succ]
      simp [jsFindIndex, hx, ih j hj]

theorem jsFindIndex_append_last {α : Type} (p : α → Bool) (l : List α) (x : α)
    (hl : ∀ y ∈ l, p y = false) (hx : p x = true) :
    jsFindIndex p (l ++ [x]) = some l.length := by
  induction l with
  | nil => simp [jsFindIndex, hx]
  | cons a as ih =>
    have ha : p a = false := hl a (by simp)
    simp [jsFindIndex, ha, ih (fun y hy => hl y (List.mem_cons_of_mem _ hy))]

theorem map_sid_set (l : List SubRec) (i : Nat) (s0 : SubRec)
    (hi : l[i]? = some s0) :
    (l.set i { s0 with stopped := false }).map SubRec.sid = l.map SubRec.sid := by
  induction l generalizing i with
  | nil => simp at hi
  | cons a as ih =>
    cases i with
    | zero =>
      have h2 : a = s0 := by simpa using hi
      subst h2
      simp
    | succ n =>
      have h2 : as[n]? = some s0 := by simpa using hi
      simp [ih n h2]

theorem subPred_props {s : SubRec} {name : String} {argsN : List Val}
    (h : (s.pubname == name && isEqualArgs s.args argsN) = true) :
    s.pubname = name ∧ s.args = argsN := by
  rw [Bool.and_eq_true] at h
  exact ⟨by simpa using h.1, by simpa [isEqualArgs] using h.2⟩

theorem subFn_eq_none (st : SubsState) (name : String) (a : Option (List Val))
    (hfi : jsFindIndex
      (fun s => s.pubname == name && isEqualArgs s.args (normalizeArgs a))
      st.subs = none) :
    subFn st name a =
      { state :=
          { subs := st.subs ++
              [{ pubname := name, args := normalizeArgs a,
                 stopped := false, sid := st.nextSid }],
            nextSid := st.nextSid + 1 },
        ret := st.nextSid,
        calls := [("foo", [Val.vNat 123, Val.vNat 2])] } := by
  unfold subFn
  rw [hfi]

theorem subFn_eq_some (st : SubsState) (name : String) (a : Option (List Val))
    (i : Nat) (s0 : SubRec)
    (hfi : jsFindIndex
      (fun s => s.pubname == name && isEqualArgs s.args (normalizeArgs a))
      st.subs = some i)
    (hi : st.subs[i]? = some s0) :
    subFn st name a =
      { state :=
          { st with subs :=
              (if s0.stopped then
                st.subs.set i { s0 with stopped := false }
              else st.subs) },
        ret := s0.sid,
        calls := [("foo", [Val.vNat 123, Val.vNat 2])] } := by
  unfold subFn
  simp only [hfi]
  rw [hi]
  rfl

theorem subFn_calls (st : SubsState) (name : String) (a : Option (List Val)) :
    (subFn st name a).calls = [("foo", [Val.vNat 123, Val.vNat 2])] := by
  cases hfi : jsFindIndex
      (fun s => s.pubname == name && isEqualArgs s.args (normalizeArgs a))
      st.subs with
  | none => rw [subFn_eq_none st name a hfi]
  | some i =>
    obtain ⟨s0, hi, _⟩ := jsFindIndex_some _ _ _ hfi
    rw [subFn_eq_some st name a i s0 hfi hi]

theorem subFn_ret_props (st : SubsState) (name : String) (a : Option (List Val)) :
    ∃ s_r, s_r ∈ (subFn st name a).state.subs ∧
      s_r.sid = (subFn st name a).ret ∧ s_r.stopped = false ∧
      s_r.pubname = name ∧ s_r.args = normalizeArgs a := by
  cases hfi : jsFindIndex
      (fun s => s.pubname == name && isEqualArgs s.args (normalizeArgs a))
      st.subs with
  | none =>
    rw [subFn_eq_none st name a hfi]
    exact ⟨⟨name, normalizeArgs a, false, st.nextSid⟩, by simp, rfl, rfl, rfl, rfl⟩
  | some i =>
    obtain ⟨s0, hi, hp⟩ := jsFindIndex_some _ _ _ hfi
    obtain ⟨hpn, hpa⟩ := subPred_props hp
    have hlen : i < st.subs.length := by
      by_contra hge
      rw [List.getElem?_eq_none (by omega)] at hi
      exact Option.noConfusion hi
    rw [subFn_eq_some st name a i s0 hfi hi]
    by_cases hstop : s0.stopped
    · refine ⟨{ s0 with stopped := false }, ?_, rfl, rfl, hpn, hpa⟩
      simp only [hstop, if_true]
      have hg : (st.subs.set i { s0 with stopped := false })[i]? =
          some { s0 with stopped := false } := by
        simp [List.getElem?_set_self, hlen]
      exact List.getElem?_mem hg
    · have hstop2 : s0.stopped = false := by simpa using hstop
      refine ⟨s0, ?_, rfl, hstop2, hpn, hpa⟩
      simp only [hstop2, Bool.false_eq_true, if_false]
      exact List.getElem?_mem hi

theorem subFn_second_same (st : SubsState) (name : String)
    (a : Option (List Val)) :
    (subFn (subFn st name a).state name a).ret = (subFn st name a).ret := by
  cases hfi : jsFindIndex
      (fun s => s.pubname == name && isEqualArgs s.args (normalizeArgs a))
      st.subs with
  | none =>
    have hall := (jsFindIndex_eq_none_iff _ _).mp hfi
    have hnew : ((fun s => s.pubname == name && isEqualArgs s.args (normalizeArgs a))
        (⟨name, normalizeArgs a, false, st.nextSid⟩ : SubRec)) = true := by
      simp [isEqualArgs]
    rw [subFn_eq_none st name a hfi]
    have hfi2 := jsFindIndex_append_last _ st.subs _ hall hnew
    have hi2 : (st.subs ++ [(⟨name, normalizeArgs a, false, st.nextSid⟩ : SubRec)])[st.subs.length]?
        = some ⟨name, normalizeArgs a, false, st.nextSid⟩ :=
      List.getElem?_concat_length _ _
    rw [subFn_eq_some _ name a st.subs.length _ hfi2 hi2]
  | some i =>
    obtain ⟨s0, hi, hp⟩ := jsFindIndex_some _ _ _ hfi
    have hlen : i < st.subs.length := by
      by_contra hge
      rw [List.getElem?_eq_none (by omega)] at hi
      exact Option.noConfusion hi
    rw [subFn_eq_some st name a i s0 hfi hi]
    by_cases hstop : s0.stopped
    · simp only [hstop, if_true]
      have hp2 : ((fun s => s.pubname == name && isEqualArgs s.args (normalizeArgs a))
          ({ s0 with stopped := false } : SubRec)) = true := by
        obtain ⟨h1, h2⟩ := subPred_props hp
        simp [isEqualArgs, h1, h2]
      have hfi2 := jsFindIndex_set_of_some _ st.subs i _ hfi hp2
      have hgot : (st.subs.set i { s0 with stopped := false })[i]? =
          some { s0 with stopped := false } := by
        simp [List.getElem?_set_self, hlen]
      rw [subFn_eq_some _ name a i _ hfi2 hgot]
    · have hstop2 : s0.stopped = false := by simpa using hstop
      simp only [hstop2, Bool.false_eq_true, if_false]
      rw [subFn_eq_some _ name a i s0 hfi hi]

theorem subsWF_subFn (st : SubsState) (name : String) (a : Option (List Val))
    (h : subsWF st) : subsWF (subFn st name a).state := by
  cases hfi : jsFindIndex
      (fun s => s.pubname == name && isEqualArgs s.args (normalizeArgs a))
      st.subs with
  | none =>
    rw [subFn_eq_none st name a hfi]
    constructor
    · intro s hs
      rcases List.mem_append.mp hs with h2 | h2
      · exact Nat.lt_succ_of_lt (h.1 s h2)
      · have h3 : s = (⟨name, normalizeArgs a, false, st.nextSid⟩ : SubRec) := by
          simpa using h2
        subst h3
        exact Nat.lt_succ_self _
    · rw [List.map_append, List.nodup_append]
      refine ⟨h.2, by simp, ?_⟩
      intro x hx
      obtain ⟨s, hs, hsx⟩ := List.mem_map.mp hx
      subst hsx
      have := h.1 s hs
      simp only [List.map_cons, List.map_nil, List.mem_singleton]
      omega
  | some i =>
    obtain ⟨s0, hi, hp⟩ := jsFindIndex_some _ _ _ hfi
    rw [subFn_eq_some st name a i s0 hfi hi]
    by_cases hstop : s0.stopped
    · simp only [hstop, if_true]
      constructor
      · intro s hs
        rcases List.mem_or_eq_of_mem_set hs with h2 | h2
        · exact h.1 s h2
        · subst h2
          exact h.1 s0 (List.getElem?_mem hi)
      · show ((st.subs.set i { s0 with stopped := false }).map SubRec.sid).Nodup
        rw [map_sid_set st.subs i s0 hi]
        exact h.2
    · have hstop2 : s0.stopped = false := by simpa using hstop
      simp only [hstop2, Bool.false_eq_true, if_false]
      exact h

theorem subFn_distinct (st : SubsState) (name : String)
    (a b : Option (List Val)) (h : subsWF st)
    (hne : normalizeArgs b ≠ normalizeArgs a) :
    (subFn (subFn st name a).state name b).ret ≠ (subFn st name a).ret := by
  obtain ⟨s_r, hmem, hsid, _, _, hargs⟩ := subFn_ret_props st name a
  have hwf1 := subsWF_subFn st name a h
  cases hfi : jsFindIndex
      (fun s => s.pubname == name && isEqualArgs s.args (normalizeArgs b))
      (subFn st name a).state.subs with
  | none =>
    rw [subFn_eq_none _ name b hfi]
    have := hwf1.1 s_r hmem
    show (subFn st name a).state.nextSid ≠ (subFn st name a).ret
    omega
  | some i =>
    obtain ⟨s_b, hib, hpb⟩ := jsFindIndex_some _ _ _ hfi
    obtain ⟨hbn, hba⟩ := subPred_props hpb
    rw [subFn_eq_some _ name b i s_b hfi hib]
    show s_b.sid ≠ (subFn st name a).ret
    intro hcontra
    have hmemb : s_b ∈ (subFn st name a).state.subs := List.getElem?_mem hib
    have hsame : s_b = s_r :=
      List.inj_on_of_nodup_map hwf1.2 hmemb hmem (by rw [hcontra, hsid])
    rw [hsame] at hba
    exact hne (hba ▸ hargs ▸ rfl)

theorem dispatchAdded_notifs (ls : List Listener) (st : Store) (c : String)
    (id : Val) (fields : Option Doc) :
    (dispatchAdded ls st c id fields).2 =
      notifList (fun l => listenerNotifAdded l c (mkDoc id (fields.getD []))
        ((addedNewCol (getColD st c) id fields).length - 1)
        (addedNewCol (getColD st c) id fields) (fieldFlagsAdded fields)) ls := rfl

/-! ### Claim theorems -/

/-- C1: the claim says `clearData()` synthesizes one `removed` message per
stored document carrying that document's identifier, and that applying them
leaves every collection empty by resolution time.  The claim matches the
method's own documentation (`Removes all documents like if it was removed by
the server publication`), but the code reads `doc.id` while stored documents
keep their identifier under `_id`, so every synthesized message carries
`undefined` and `dispatchRemoved` matches nothing: on a store holding one
document `{_id: 1, v: 2}` in collection `c1`, the emitted message id is
`undefined`, the store is left unchanged (hence non-empty), and yet the
promise still resolves after one tagged notification. -/
theorem C1_clearData_removes_nothing :
    totalDocuments [("c1", [[("_id", Val.vNat 1), ("v", Val.vNat 2)]])] = 1
    ∧ clearDataImmediate [("c1", [[("_id", Val.vNat 1), ("v", Val.vNat 2)]])] = false
    ∧ (clearDataRun [("c1", [[("_id", Val.vNat 1), ("v", Val.vNat 2)]])]).2
        = [("c1", Val.vUndefined)]
    ∧ (clearDataRun [("c1", [[("_id", Val.vNat 1), ("v", Val.vNat 2)]])]).1
        = [("c1", [[("_id", Val.vNat 1), ("v", Val.vNat 2)]])] := by
  decide

/-- C2 counterexample: for the state with `connected = true` and
`tryingToConnect = false` (the normal state of a connected client), the
claim says `connect()` does not invoke the Transport's connect operation —
but the code guards the Transport call only by `tryingToConnect`, so the
Transport's connect IS invoked (while the promise still resolves
immediately). -/
theorem C2_counterexample_transport_contacted :
    (connectRun none ⟨true, false, true⟩).resolvedImmediately = true
    ∧ (connectRun none ⟨true, false, true⟩).transportConnectCalled = true := by
  decide

/-- C2 (amended): for every client whose connected flag is set, `connect()`
resolves the returned future immediately; the Transport's connect operation
is invoked exactly when no connection attempt is in progress
(`tryingToConnect` false), rather than never. -/
theorem C2_connect_when_connected (ar : Option Bool) (s : ConnSt)
    (h : s.connected = true) :
    (connectRun ar s).resolvedImmediately = true
    ∧ (connectRun ar s).transportConnectCalled = (!s.tryingToConnect) := by
  unfold connectRun
  by_cases ht : s.tryingToConnect <;> simp [ht, h]

/-- C2 witness: the amended theorem at the connected, already-trying
state. -/
theorem C2_connect_when_connected_witness :
    (⟨true, true, true⟩ : ConnSt).connected = true
    ∧ ((connectRun none ⟨true, true, true⟩).resolvedImmediately = true
      ∧ (connectRun none ⟨true, true, true⟩).transportConnectCalled
          = (!(⟨true, true, true⟩ : ConnSt).tryingToConnect)) :=
  ⟨rfl, C2_connect_when_connected none ⟨true, true, true⟩ rfl⟩

/-- C3 counterexample: `importData` does not clear the store first, so from
a store already holding `{_id: 1}` in collection `c`, importing the data set
`{c: [{id: 2}]}` leaves a fetch of `c` with BOTH documents — not `exactly
the imported documents` as the claim states. -/
theorem C3_counterexample_nonempty_store :
    fetchRun none ⟨none, none, none⟩
        (alookup (importRun [("c", [[("_id", Val.vNat 1)]])]
          [("c", [[("id", Val.vNat 2)]])]) "c")
      = [[("_id", Val.vNat 1)], [("_id", Val.vNat 2)]]
    ∧ ([[("_id", Val.vNat 1)], [("_id", Val.vNat 2)]] : List Doc)
        ≠ ([[("id", Val.vNat 2)]] : List Doc).map storedOf := by
  decide

/-- C3 (amended): starting from an EMPTY store, for a data set whose
collection names are distinct, whose documents carry pairwise non-equal
(under loose equality) identifiers in their `id` property, no `_id`
property, and no duplicate keys, `importData` synthesizes exactly one
tagged `added` message per document (so it resolves exactly at the
`totalDocuments`-th tagged notification), and afterwards a fetch of each
imported collection returns exactly the imported documents (stored with
their identifier moved into `_id`). -/
theorem C3_importData_amended (data : List (String × List Doc))
    (hnd : (data.map Prod.fst).Nodup)
    (hgood : ∀ p ∈ data,
      (p.2.map (fun d => getField d "id")).Pairwise (fun a b => jsEq a b = false)
      ∧ ∀ d ∈ p.2, alookup d "_id" = none ∧ (d.map Prod.fst).Nodup) :
    (importMsgs data).length = totalImportDocs data
    ∧ ∀ c docs, alookup data c = some docs →
        fetchRun none ⟨none, none, none⟩ (alookup (importRun [] data) c)
          = docs.map storedOf := by
  refine ⟨importMsgs_length data, ?_⟩
  intro c docs hc
  rw [fetchRun_noSettings]
  show getColD (importRun [] data) c = docs.map storedOf
  rw [importRun_spec data [] hnd hgood (fun p _ => rfl) c, hc]

/-- C3 witness: the amended theorem at the two-document data set
`{feed: [{id: "a", v: 1}, {id: "b"}]}`. -/
theorem C3_importData_amended_witness :
    ((([("feed", [[("id", Val.vStr "a"), ("v", Val.vNat 1)],
        [("id", Val.vStr "b")]])] : List (String × List Doc)).map
        Prod.fst).Nodup)
    ∧ (∀ p ∈ ([("feed", [[("id", Val.vStr "a"), ("v", Val.vNat 1)],
          [("id", Val.vStr "b")]])] : List (String × List Doc)),
        (p.2.map (fun d => getField d "id")).Pairwise
          (fun a b => jsEq a b = false)
        ∧ ∀ d ∈ p.2, alookup d "_id" = none ∧ (d.map Prod.fst).Nodup)
    ∧ (importMsgs [("feed", [[("id", Val.vStr "a"), ("v", Val.vNat 1)],
        [("id", Val.vStr "b")]])]).length
      = totalImportDocs [("feed", [[("id", Val.vStr "a"), ("v", Val.vNat 1)],
        [("id", Val.vStr "b")]])]
    ∧ fetchRun none ⟨none, none, none⟩
        (alookup (importRun []
          [("feed", [[("id", Val.vStr "a"), ("v", Val.vNat 1)],
            [("id", Val.vStr "b")]])]) "feed")
      = ([[("id", Val.vStr "a"), ("v", Val.vNat 1)],
          [("id", Val.vStr "b")]] : List Doc).map storedOf := by
  have h := C3_importData_amended
    [("feed", [[("id", Val.vStr "a"), ("v", Val.vNat 1)],
      [("id", Val.vStr "b")]])] (by decide) (by decide)
  exact ⟨by decide, by decide, h.1,
    h.2 "feed" [[("id", Val.vStr "a"), ("v", Val.vNat 1)],
      [("id", Val.vStr "b")]] (by decide)⟩

/-- C4 counterexample: an `added` message whose `fields` payload itself
names `_id` breaks identifier uniqueness: from the store
`{c: [{_id:"a"}, {_id:"b"}]}` (which satisfies the invariant), the diff
`added(c, id:"c", fields:{_id:"b"})` produces `[{_id:"a"}, {_id:"b"},
{_id:"b"}]`, because `Object.assign({_id:"c"}, {_id:"b"})` overwrites the
identifier and no stale document with id `"c"` existed to evict. -/
theorem C4_counterexample_id_in_fields :
    storeInv [("c", [[("_id", Val.vStr "a")], [("_id", Val.vStr "b")]])]
    ∧ ¬ storeInv (applyDiff
        [("c", [[("_id", Val.vStr "a")], [("_id", Val.vStr "b")]])]
        (.added "c" (Val.vStr "c") (some [("_id", Val.vStr "b")]))) := by
  decide

/-- C4 (amended): for every store whose collections have pairwise
non-loosely-equal string identifiers, and every sequence of
added/changed/removed diffs whose message ids are strings and whose
`fields`/`cleared` payloads never name the `_id` key, the invariant is
preserved: after applying the whole sequence, no two documents of any
collection share an identifier (and all identifiers remain strings); in
particular an added message for an identifier already present evicts the
stale document before the new one is appended. -/
theorem C4_uniqueness_amended (st : Store) (msgs : List DiffMsg)
    (h : storeInv st) (hm : ∀ m ∈ msgs, goodDiff m) :
    storeInv (msgs.foldl applyDiff st) :=
  storeInv_foldDiffs st msgs h hm

/-- C4 witness: the amended theorem on a one-document store and a
three-message diff sequence (a replacing add, a change, a removal of an
absent id). -/
theorem C4_uniqueness_amended_witness :
    storeInv [("col", [[("_id", Val.vStr "a")]])]
    ∧ (∀ m ∈ [DiffMsg.added "col" (Val.vStr "a") (some [("x", Val.vNat 1)]),
        DiffMsg.changed "col" (Val.vStr "a") (some [("x", Val.vNat 2)])
          (some ["y"]),
        DiffMsg.removed "col" (Val.vStr "z")], goodDiff m)
    ∧ storeInv (([DiffMsg.added "col" (Val.vStr "a") (some [("x", Val.vNat 1)]),
        DiffMsg.changed "col" (Val.vStr "a") (some [("x", Val.vNat 2)])
          (some ["y"]),
        DiffMsg.removed "col" (Val.vStr "z")]).foldl applyDiff
        [("col", [[("_id", Val.vStr "a")]])]) :=
  ⟨by decide, by decide,
   C4_uniqueness_amended [("col", [[("_id", Val.vStr "a")]])] _
     (by decide) (by decide)⟩

/-- C5 counterexample: a `changed` diff whose `fields` payload names `_id`
changes the identifier of the live document, contradicting the claim's
`its identifier ... unchanged`: on `{c: [{_id:1, v:2}]}`, the diff
`changed(c, id:1, fields:{_id:9})` rewrites the stored identifier to 9. -/
theorem C5_counterexample_id_overwritten :
    dispatchChangedStore [("c", [[("_id", Val.vNat 1), ("v", Val.vNat 2)]])]
        "c" (Val.vNat 1) (some [("_id", Val.vNat 9)]) none
      = [("c", [[("_id", Val.vNat 9), ("v", Val.vNat 2)]])]
    ∧ getId [("_id", Val.vNat 9), ("v", Val.vNat 2)]
        ≠ getId [("_id", Val.vNat 1), ("v", Val.vNat 2)] := by
  decide

/-- C5 (amended): for every changed diff whose identifier matches an
existing document and whose `fields` payload (with distinct keys) and
`cleared` list do not name the `_id` key, the mutation sets exactly the
keys named in `fields`, deletes exactly the keys named in `cleared`
(cleared wins over fields on overlap, matching the source order), leaves
every other field, the identifier, every other document of the collection
and every other collection unchanged. -/
theorem C5_changed_frame_amended (st : Store) (c : String) (id : Val)
    (fs : Option Doc) (cl : Option (List String)) (col : List Doc) (i : Nat)
    (hcol : alookup st c = some col)
    (hfi : jsFindIndex (fun d => jsEq (getId d) id) col = some i)
    (hnd : ((fs.getD []).map Prod.fst).Nodup)
    (hfid : "_id" ∉ (fs.getD []).map Prod.fst)
    (hcid : "_id" ∉ cl.getD []) :
    dispatchChangedStore st c id fs cl
      = aset st c (col.set i (applyChange (col[i]?.getD []) fs cl))
    ∧ (∀ k ∈ cl.getD [], alookup (applyChange (col[i]?.getD []) fs cl) k = none)
    ∧ (∀ k v, k ∉ cl.getD [] → alookup (fs.getD []) k = some v →
        alookup (applyChange (col[i]?.getD []) fs cl) k = some v)
    ∧ (∀ k, k ∉ cl.getD [] → k ∉ (fs.getD []).map Prod.fst →
        alookup (applyChange (col[i]?.getD []) fs cl) k
          = alookup (col[i]?.getD []) k)
    ∧ alookup (applyChange (col[i]?.getD []) fs cl) "_id"
        = alookup (col[i]?.getD []) "_id"
    ∧ (∀ j, j ≠ i →
        (col.set i (applyChange (col[i]?.getD []) fs cl))[j]? = col[j]?)
    ∧ (∀ c2, c2 ≠ c →
        getColD (dispatchChangedStore st c id fs cl) c2 = getColD st c2) := by
  have heq := dispatchChangedStore_found st c id fs cl col i hcol hfi
  refine ⟨heq, ?_, ?_, ?_, ?_, ?_, ?_⟩
  · intro k hk
    exact alookup_applyChange_cleared _ fs cl k hk
  · intro k v hkc hv
    exact alookup_applyChange_fields _ fs cl k v hkc hnd hv
  · intro k hkc hkf
    exact alookup_applyChange_frame _ fs cl k hkc hkf
  · exact alookup_applyChange_frame _ fs cl "_id" hcid hfid
  · intro j hj
    exact List.getElem?_set_ne (Ne.symm hj)
  · intro c2 hc2
    rw [heq]
    unfold getColD
    rw [alookup_aset_ne _ _ _ _ hc2]

/-- C5 witness: the amended theorem on `{c: [{_id:"x", v:1, w:2}]}` with
`fields = {v:5, u:7}` and `cleared = [w]`. -/
theorem C5_changed_frame_amended_witness :
    alookup [("c", [[("_id", Val.vStr "x"), ("v", Val.vNat 1),
        ("w", Val.vNat 2)]])] "c"
      = some [[("_id", Val.vStr "x"), ("v", Val.vNat 1), ("w", Val.vNat 2)]]
    ∧ jsFindIndex (fun d => jsEq (getId d) (Val.vStr "x"))
        [[("_id", Val.vStr "x"), ("v", Val.vNat 1), ("w", Val.vNat 2)]]
      = some 0
    ∧ (((some [("v", Val.vNat 5), ("u", Val.vNat 7)] : Option Doc).getD
        []).map Prod.fst).Nodup
    ∧ "_id" ∉ ((some [("v", Val.vNat 5), ("u", Val.vNat 7)] : Option Doc).getD
        []).map Prod.fst
    ∧ "_id" ∉ (some ["w"] : Option (List String)).getD []
    ∧ (dispatchChangedStore [("c", [[("_id", Val.vStr "x"), ("v", Val.vNat 1),
          ("w", Val.vNat 2)]])] "c" (Val.vStr "x")
          (some [("v", Val.vNat 5), ("u", Val.vNat 7)]) (some ["w"])
        = aset [("c", [[("_id", Val.vStr "x"), ("v", Val.vNat 1),
            ("w", Val.vNat 2)]])] "c"
          (([[("_id", Val.vStr "x"), ("v", Val.vNat 1),
            ("w", Val.vNat 2)]] : List Doc).set 0
            (applyChange (([[("_id", Val.vStr "x"), ("v", Val.vNat 1),
              ("w", Val.vNat 2)]] : List Doc)[0]?.getD [])
              (some [("v", Val.vNat 5), ("u", Val.vNat 7)]) (some ["w"])))
      ∧ (∀ k ∈ (some ["w"] : Option (List String)).getD [],
          alookup (applyChange (([[("_id", Val.vStr "x"), ("v", Val.vNat 1),
            ("w", Val.vNat 2)]] : List Doc)[0]?.getD [])
            (some [("v", Val.vNat 5), ("u", Val.vNat 7)]) (some ["w"])) k
          = none)
      ∧ (∀ k v, k ∉ (some ["w"] : Option (List String)).getD [] →
          alookup ((some [("v", Val.vNat 5), ("u", Val.vNat 7)] :
            Option Doc).getD []) k = some v →
          alookup (applyChange (([[("_id", Val.vStr "x"), ("v", Val.vNat 1),
            ("w", Val.vNat 2)]] : List Doc)[0]?.getD [])
            (some [("v", Val.vNat 5), ("u", Val.vNat 7)]) (some ["w"])) k
          = some v)
      ∧ (∀ k, k ∉ (some ["w"] : Option (List String)).getD [] →
          k ∉ ((some [("v", Val.vNat 5), ("u", Val.vNat 7)] :
            Option Doc).getD []).map Prod.fst →
          alookup (applyChange (([[("_id", Val.vStr "x"), ("v", Val.vNat 1),
            ("w", Val.vNat 2)]] : List Doc)[0]?.getD [])
            (some [("v", Val.vNat 5), ("u", Val.vNat 7)]) (some ["w"])) k
          = alookup (([[("_id", Val.vStr "x"), ("v", Val.vNat 1),
            ("w", Val.vNat 2)]] : List Doc)[0]?.getD []) k)
      ∧ alookup (applyChange (([[("_id", Val.vStr "x"), ("v", Val.vNat 1),
          ("w", Val.vNat 2)]] : List Doc)[0]?.getD [])
          (some [("v", Val.vNat 5), ("u", Val.vNat 7)]) (some ["w"])) "_id"
        = alookup (([[("_id", Val.vStr "x"), ("v", Val.vNat 1),
          ("w", Val.vNat 2)]] : List Doc)[0]?.getD []) "_id"
      ∧ (∀ j, j ≠ 0 →
          (([[("_id", Val.vStr "x"), ("v", Val.vNat 1),
            ("w", Val.vNat 2)]] : List Doc).set 0
            (applyChange (([[("_id", Val.vStr "x"), ("v", Val.vNat 1),
              ("w", Val.vNat 2)]] : List Doc)[0]?.getD [])
              (some [("v", Val.vNat 5), ("u", Val.vNat 7)]) (some ["w"])))[j]?
          = ([[("_id", Val.vStr "x"), ("v", Val.vNat 1),
            ("w", Val.vNat 2)]] : List Doc)[j]?)
      ∧ (∀ c2, c2 ≠ "c" →
          getColD (dispatchChangedStore [("c", [[("_id", Val.vStr "x"),
            ("v", Val.vNat 1), ("w", Val.vNat 2)]])] "c" (Val.vStr "x")
            (some [("v", Val.vNat 5), ("u", Val.vNat 7)]) (some ["w"])) c2
          = getColD [("c", [[("_id", Val.vStr "x"), ("v", Val.vNat 1),
            ("w", Val.vNat 2)]])] c2)) :=
  ⟨by decide, by decide, by decide, by decide, by decide,
   C5_changed_frame_amended
     [("c", [[("_id", Val.vStr "x"), ("v", Val.vNat 1), ("w", Val.vNat 2)]])]
     "c" (Val.vStr "x") (some [("v", Val.vNat 5), ("u", Val.vNat 7)])
     (some ["w"])
     [[("_id", Val.vStr "x"), ("v", Val.vNat 1), ("w", Val.vNat 2)]] 0
     (by decide) (by decide) (by decide) (by decide) (by decide)⟩

/-- C6: for every listener registered with a predicate on a collection, an
added diff on that collection invokes the listener iff the predicate
accepts the new document (at its insertion index, against the live
post-push array); a changed diff on an existing document invokes it iff the
predicate accepts the pre-change copy or the post-change document (both at
the hit index against the post-change array, as in the source); a removed
diff on an existing document invokes it iff the predicate accepts the
removed document (at its former index against the post-removal array). -/
theorem C6_predicate_listener_iff (ls : List Listener) (j : Nat)
    (l : Listener) (phi : Doc → Nat → List Doc → Bool) (st : Store)
    (c : String) (id : Val) (fields : Option Doc)
    (cleared : Option (List String)) (hj : ls[j]? = some l)
    (hf : l.filter = some phi) (hc : l.collection = c) :
    (((dispatchAdded ls st c id fields).2.any (fun q => q.1 == j))
        = phi (mkDoc id (fields.getD []))
            ((addedNewCol (getColD st c) id fields).length - 1)
            (addedNewCol (getColD st c) id fields))
    ∧ (∀ col i, alookup st c = some col →
        jsFindIndex (fun d => jsEq (getId d) id) col = some i →
        ((dispatchChanged ls st c id fields cleared).2.any (fun q => q.1 == j))
          = (phi (col[i]?.getD []) i
               (col.set i (applyChange (col[i]?.getD []) fields cleared))
             || phi (applyChange (col[i]?.getD []) fields cleared) i
               (col.set i (applyChange (col[i]?.getD []) fields cleared))))
    ∧ (∀ col i, alookup st c = some col →
        jsFindIndex (fun d => jsEq (getId d) id) col = some i →
        ((dispatchRemoved ls st c id).2.any (fun q => q.1 == j))
          = phi (col[i]?.getD []) i (jsRemoveAt col i)) := by
  refine ⟨?_, ?_, ?_⟩
  · rw [dispatchAdded_notifs, notifList_any _ ls j l hj]
    simp only [listenerNotifAdded, hc, hf, beq_self_eq_true, if_true]
    cases hphi : phi (mkDoc id (fields.getD []))
        ((addedNewCol (getColD st c) id fields).length - 1)
        (addedNewCol (getColD st c) id fields) <;> simp [hphi]
  · intro col i hcol hfi
    rw [dispatchChanged_found_notifs ls st c id fields cleared col i hcol hfi,
      notifList_any _ ls j l hj]
    simp only [listenerNotifChanged, hc, hf, beq_self_eq_true, if_true]
    cases hpf : phi (col[i]?.getD []) i
        (col.set i (applyChange (col[i]?.getD []) fields cleared)) <;>
      cases hnf : phi (applyChange (col[i]?.getD []) fields cleared) i
        (col.set i (applyChange (col[i]?.getD []) fields cleared)) <;>
      simp [hpf, hnf]
  · intro col i hcol hfi
    rw [dispatchRemoved_found_notifs ls st c id col i hcol hfi,
      notifList_any _ ls j l hj]
    simp only [listenerNotifRemoved, hc, hf, beq_self_eq_true, if_true]
    cases hphi : phi (col[i]?.getD []) i (jsRemoveAt col i) <;> simp [hphi]

/-- C6 witness: the iff theorem at a one-listener registry whose predicate
tests `v == 1`, over the store `{c: [{_id:"a", v:1}]}`. -/
theorem C6_predicate_listener_iff_witness :
    ([(⟨"c", some (fun d _ _ => jsEq (getField d "v") (Val.vNat 1))⟩ :
        Listener)][0]? = some ⟨"c",
        some (fun d _ _ => jsEq (getField d "v") (Val.vNat 1))⟩)
    ∧ ((⟨"c", some (fun d _ _ => jsEq (getField d "v") (Val.vNat 1))⟩ :
        Listener).filter
        = some (fun d _ _ => jsEq (getField d "v") (Val.vNat 1)))
    ∧ ((⟨"c", some (fun d _ _ => jsEq (getField d "v") (Val.vNat 1))⟩ :
        Listener).collection = "c")
    ∧ ((((dispatchAdded
          [⟨"c", some (fun d _ _ => jsEq (getField d "v") (Val.vNat 1))⟩]
          [("c", [[("_id", Val.vStr "a"), ("v", Val.vNat 1)]])] "c"
          (Val.vStr "a") (some [("v", Val.vNat 2)])).2.any
            (fun q => q.1 == 0))
        = (fun d _ _ => jsEq (getField d "v") (Val.vNat 1))
            (mkDoc (Val.vStr "a")
              ((some [("v", Val.vNat 2)] : Option Doc).getD []))
            ((addedNewCol
              (getColD [("c", [[("_id", Val.vStr "a"), ("v", Val.vNat 1)]])]
                "c") (Val.vStr "a") (some [("v", Val.vNat 2)])).length - 1)
            (addedNewCol
              (getColD [("c", [[("_id", Val.vStr "a"), ("v", Val.vNat 1)]])]
                "c") (Val.vStr "a") (some [("v", Val.vNat 2)])))
      ∧ (∀ col i, alookup
            [("c", [[("_id", Val.vStr "a"), ("v", Val.vNat 1)]])] "c"
            = some col →
          jsFindIndex (fun d => jsEq (getId d) (Val.vStr "a")) col = some i →
          ((dispatchChanged
            [⟨"c", some (fun d _ _ => jsEq (getField d "v") (Val.vNat 1))⟩]
            [("c", [[("_id", Val.vStr "a"), ("v", Val.vNat 1)]])] "c"
            (Val.vStr "a") (some [("v", Val.vNat 2)]) none).2.any
              (fun q => q.1 == 0))
            = ((fun d _ _ => jsEq (getField d "v") (Val.vNat 1))
                (col[i]?.getD []) i
                (col.set i (applyChange (col[i]?.getD [])
                  (some [("v", Val.vNat 2)]) none))
              || (fun d _ _ => jsEq (getField d "v") (Val.vNat 1))
                (applyChange (col[i]?.getD []) (some [("v", Val.vNat 2)])
                  none) i
                (col.set i (applyChange (col[i]?.getD [])
                  (some [("v", Val.vNat 2)]) none))))
      ∧ (∀ col i, alookup
            [("c", [[("_id", Val.vStr "a"), ("v", Val.vNat 1)]])] "c"
            = some col →
          jsFindIndex (fun d => jsEq (getId d) (Val.vStr "a")) col = some i →
          ((dispatchRemoved
            [⟨"c", some (fun d _ _ => jsEq (getField d "v") (Val.vNat 1))⟩]
            [("c", [[("_id", Val.vStr "a"), ("v", Val.vNat 1)]])] "c"
            (Val.vStr "a")).2.any (fun q => q.1 == 0))
            = (fun d _ _ => jsEq (getField d "v") (Val.vNat 1))
                (col[i]?.getD []) i (jsRemoveAt col i))) :=
  ⟨rfl, rfl, rfl,
   C6_predicate_listener_iff
     [⟨"c", some (fun d _ _ => jsEq (getField d "v") (Val.vNat 1))⟩] 0
     ⟨"c", some (fun d _ _ => jsEq (getField d "v") (Val.vNat 1))⟩
     (fun d _ _ => jsEq (getField d "v") (Val.vNat 1))
     [("c", [[("_id", Val.vStr "a"), ("v", Val.vNat 1)]])] "c" (Val.vStr "a")
     (some [("v", Val.vNat 2)]) none rfl rfl rfl⟩

/-- C7: for every well-formed registry, two consecutive `sub` calls with
the same name and deep-equal argument sequence return the identical
subscription object (the second call's returned identity equals the
first's); the returned subscription is active (resumed if it was stopped)
and carries the requested name and normalized arguments; and a call with a
non-deep-equal argument sequence returns a distinct subscription object.
`isEqual` and the `ddpSubscription` record are modelled from the spec, as
their sources are not part of the repository snapshot. -/
theorem C7_sub_interning (st : SubsState) (name : String)
    (a b : Option (List Val)) (hwf : subsWF st)
    (hne : normalizeArgs b ≠ normalizeArgs a) :
    (subFn (subFn st name a).state name a).ret = (subFn st name a).ret
    ∧ (∃ s_r, s_r ∈ (subFn st name a).state.subs ∧
        s_r.sid = (subFn st name a).ret ∧ s_r.stopped = false ∧
        s_r.pubname = name ∧ s_r.args = normalizeArgs a)
    ∧ (subFn (subFn st name a).state name b).ret ≠ (subFn st name a).ret :=
  ⟨subFn_second_same st name a, subFn_ret_props st name a,
   subFn_distinct st name a b hwf hne⟩

/-- C7 witness: the interning theorem on an empty registry with
`subscribe("feed", [1,2])` against `subscribe("feed", [1,3])`. -/
theorem C7_sub_interning_witness :
    subsWF ⟨[], 0⟩
    ∧ normalizeArgs (some [Val.vNat 1, Val.vNat 3])
        ≠ normalizeArgs (some [Val.vNat 1, Val.vNat 2])
    ∧ ((subFn (subFn ⟨[], 0⟩ "feed" (some [Val.vNat 1, Val.vNat 2])).state
          "feed" (some [Val.vNat 1, Val.vNat 2])).ret
        = (subFn ⟨[], 0⟩ "feed" (some [Val.vNat 1, Val.vNat 2])).ret
      ∧ (∃ s_r, s_r ∈ (subFn ⟨[], 0⟩ "feed"
            (some [Val.vNat 1, Val.vNat 2])).state.subs ∧
          s_r.sid = (subFn ⟨[], 0⟩ "feed"
            (some [Val.vNat 1, Val.vNat 2])).ret ∧
          s_r.stopped = false ∧ s_r.pubname = "feed" ∧
          s_r.args = normalizeArgs (some [Val.vNat 1, Val.vNat 2]))
      ∧ (subFn (subFn ⟨[], 0⟩ "feed" (some [Val.vNat 1, Val.vNat 2])).state
          "feed" (some [Val.vNat 1, Val.vNat 3])).ret
        ≠ (subFn ⟨[], 0⟩ "feed" (some [Val.vNat 1, Val.vNat 2])).ret) :=
  ⟨by decide, by decide,
   C7_sub_interning ⟨[], 0⟩ "feed" (some [Val.vNat 1, Val.vNat 2])
     (some [Val.vNat 1, Val.vNat 3]) (by decide) (by decide)⟩

/-- C8: for every added diff and every predicate-bearing listener whose
predicate accepts the new document, the delivered payload is the
changed-notification shape with `prev` set to `false` (`none`), `next` the
copy of the new document, and each added field name flagged with 1 — not
the added-notification shape used for predicate-free listeners. -/
theorem C8_filtered_added_payload_shape (l : Listener)
    (phi : Doc → Nat → List Doc → Bool) (c : String) (newObj : Doc)
    (idx : Nat) (col : List Doc) (fields : Option Doc)
    (hf : l.filter = some phi) (hc : l.collection = c)
    (hphi : phi newObj idx col = true) :
    listenerNotifAdded l c newObj idx col (fieldFlagsAdded fields)
      = some (.filterNotify none newObj (fieldFlagsAdded fields) newObj [] none)
    ∧ (∀ d : Doc, listenerNotifAdded l c newObj idx col (fieldFlagsAdded fields)
        ≠ some (.plainAdded d))
    ∧ ∀ k ∈ (fields.getD []).map Prod.fst,
        alookup (fieldFlagsAdded fields) k = some 1 := by
  have hmain : listenerNotifAdded l c newObj idx col (fieldFlagsAdded fields)
      = some (.filterNotify none newObj (fieldFlagsAdded fields) newObj [] none) := by
    simp [listenerNotifAdded, hc, hf, hphi]
  refine ⟨hmain, ?_, ?_⟩
  · intro d
    rw [hmain]
    simp
  · intro k hk
    exact fieldFlagsAdded_mem fields k hk

/-- C8 witness: the payload-shape theorem for an always-true predicate and
the fields payload `{v: 3}`. -/
theorem C8_filtered_added_payload_shape_witness :
    ((⟨"c", some (fun _ _ _ => true)⟩ : Listener).filter
        = some (fun _ _ _ => true))
    ∧ ((⟨"c", some (fun _ _ _ => true)⟩ : Listener).collection = "c")
    ∧ ((fun (_ : Doc) (_ : Nat) (_ : List Doc) => true)
        [("_id", Val.vStr "a")] 0 [[("_id", Val.vStr "a")]] = true)
    ∧ (listenerNotifAdded (⟨"c", some (fun _ _ _ => true)⟩ : Listener) "c"
          [("_id", Val.vStr "a")] 0 [[("_id", Val.vStr "a")]]
          (fieldFlagsAdded (some [("v", Val.vNat 3)]))
        = some (.filterNotify none [("_id", Val.vStr "a")]
            (fieldFlagsAdded (some [("v", Val.vNat 3)]))
            [("_id", Val.vStr "a")] [] none)
      ∧ (∀ d : Doc, listenerNotifAdded
          (⟨"c", some (fun _ _ _ => true)⟩ : Listener) "c"
          [("_id", Val.vStr "a")] 0 [[("_id", Val.vStr "a")]]
          (fieldFlagsAdded (some [("v", Val.vNat 3)]))
          ≠ some (.plainAdded d))
      ∧ ∀ k ∈ ((some [("v", Val.vNat 3)] : Option Doc).getD []).map Prod.fst,
          alookup (fieldFlagsAdded (some [("v", Val.vNat 3)])) k = some 1) :=
  ⟨rfl, rfl, rfl,
   C8_filtered_added_payload_shape (⟨"c", some (fun _ _ _ => true)⟩ : Listener)
     (fun _ _ _ => true) "c" [("_id", Val.vStr "a")] 0
     [[("_id", Val.vStr "a")]] (some [("v", Val.vNat 3)]) rfl rfl rfl⟩

/-- C9: `fetch` operates on a (deep) copy of the stored sequence and
applies the collection filter first, then the stable comparator sort, then
drops the first `skip` elements when `skip` is a number, then truncates to
`limit` elements, in that fixed order; and on the documents
`[{id:1,v:3},{id:2,v:1},{id:3,v:2}]` with sort ascending by `v`, skip 1 and
limit 1 it returns `[{id:3,v:2}]`. -/
theorem C9_fetch_pipeline :
    (∀ (filt : Option (Doc → Bool)) (cmp : Option (Doc → Doc → Int))
      (skip limit : Option Nat) (stored : Option (List Doc)),
      fetchRun filt
        ⟨skip.map (fun k => JsNum.fin (k : Int)),
         limit.map (fun n => JsNum.fin (n : Int)), cmp⟩ stored
        = specFetchPipeline filt cmp skip limit stored)
    ∧ fetchRun none
        ⟨some (.fin 1), some (.fin 1),
         some (fun a b => intOfVal (getField a "v") - intOfVal (getField b "v"))⟩
        (some [[("id", Val.vNat 1), ("v", Val.vNat 3)],
          [("id", Val.vNat 2), ("v", Val.vNat 1)],
          [("id", Val.vNat 3), ("v", Val.vNat 2)]])
      = [[("id", Val.vNat 3), ("v", Val.vNat 2)]] :=
  ⟨fetchRun_eq_pipeline, by decide⟩

/-- C10: every invocation of `sub(pubname, args)` — whether or not a
matching subscription already exists — issues exactly one remote method
invocation, of the method named `foo` with arguments `[123, 2]`, whose
result is bound to an unused local and thus discarded (simpleDDP.ts line
470). -/
theorem C10_sub_always_calls_foo (st : SubsState) (name : String)
    (args : Option (List Val)) :
    (subFn st name args).calls = [("foo", [Val.vNat 123, Val.vNat 2])] :=
  subFn_calls st name args

end SDDP
